import Mathlib

/- Verification development for the Cop30_Scraper repository.

   Shallow embedding of the UNFCCC event spider
   (cop30_scraper/spiders/events.py) and of the Google-Sheets pipeline
   (cop30_scraper/pipelines.py).  Strings are modelled as `List Char`;
   Python `datetime.date` values as `PyDate`; the regular expressions of
   `parse_event_date` are translated into equivalent deterministic
   character-list functions; `datetime.strptime` is translated for the six
   format patterns the spider tries, following CPython `_strptime`
   semantics (whitespace in the format matches a nonempty whitespace run,
   `%d` is the alternation 3[01]|[12]\d|0[1-9]|[1-9], month and weekday
   names match case-insensitively, the whole string must be consumed, and
   the resulting calendar date must be constructible). -/

namespace Cop30

/-- Calendar date as produced by `datetime.date`: year, month, day. -/
structure PyDate where
  year : Nat
  month : Nat
  day : Nat
deriving DecidableEq, Repr

/-- Python `date` strict comparison (lexicographic on year, month, day). -/
def PyDate.ltb (a b : PyDate) : Bool :=
  if a.year ≠ b.year then decide (a.year < b.year)
  else if a.month ≠ b.month then decide (a.month < b.month)
  else decide (a.day < b.day)

/-- Python `date` non-strict comparison (lexicographic on year, month, day). -/
def PyDate.leb (a b : PyDate) : Bool :=
  if a.year ≠ b.year then decide (a.year < b.year)
  else if a.month ≠ b.month then decide (a.month < b.month)
  else decide (a.day ≤ b.day)

/-- Python regex `\s` on the ASCII range: the whitespace characters. -/
def isWsChar (c : Char) : Bool :=
  c == ' ' || c == '\t' || c == '\n' || c == '\r' || c == '\x0b' || c == '\x0c'

/-- Python regex `\d` on the ASCII range. -/
def isDigitC (c : Char) : Bool := decide (48 ≤ c.toNat ∧ c.toNat ≤ 57)

/-- Regex class `[A-Z]`. -/
def isUpperAZ (c : Char) : Bool := decide (65 ≤ c.toNat ∧ c.toNat ≤ 90)

/-- Regex class `[a-z]`. -/
def isLowerAZ (c : Char) : Bool := decide (97 ≤ c.toNat ∧ c.toNat ≤ 122)

/-- Python regex `\w` on the ASCII range. -/
def isWordChar (c : Char) : Bool := isUpperAZ c || isLowerAZ c || isDigitC c || c == '_'

/-- Numeric value of a digit character. -/
def digitVal (c : Char) : Nat := c.toNat - 48

/-- ASCII-case-folded code of a character (for IGNORECASE matching). -/
def lowerVal (c : Char) : Nat := if 65 ≤ c.toNat ∧ c.toNat ≤ 90 then c.toNat + 32 else c.toNat

/-- `re.sub(r'\s+', ' ', s)`: every maximal whitespace run becomes one space.
    The Bool argument records whether we are inside a run already emitted. -/
def collapseWs : List Char → Bool → List Char
  | [], _ => []
  | c :: t, inRun =>
    if isWsChar c then
      if inRun then collapseWs t true else ' ' :: collapseWs t true
    else c :: collapseWs t false

/-- Python `str.strip()`: drop leading and trailing whitespace. -/
def pyStripChars (l : List Char) : List Char :=
  ((l.dropWhile isWsChar).reverse.dropWhile isWsChar).reverse

/-- Line 62 of events.py: `re.sub(r'\s+', ' ', date_str_raw).strip()`. -/
def normSpaces (l : List Char) : List Char := pyStripChars (collapseWs l false)

/-- Line 65: `re.match(r'^[A-Z]+\s+\d{4}$', s)`.  The character classes of
    the pattern are pairwise disjoint, so the greedy match is equivalent to
    this deterministic split. -/
def isMonthHeader (l : List Char) : Bool :=
  decide (l.takeWhile isUpperAZ ≠ []) &&
    decide ((l.dropWhile isUpperAZ).takeWhile isWsChar ≠ []) &&
    decide (((l.dropWhile isUpperAZ).dropWhile isWsChar).length = 4) &&
    ((l.dropWhile isUpperAZ).dropWhile isWsChar).all isDigitC

/-- `pat` is a literal leading segment of `l`. -/
def leadsWith : List Char → List Char → Bool
  | [], _ => true
  | _ :: _, [] => false
  | p :: ps, c :: cs => p == c && leadsWith ps cs

/-- Python substring containment `pat in s`. -/
def containsSeq (pat : List Char) : List Char → Bool
  | [] => leadsWith pat []
  | c :: t => leadsWith pat (c :: t) || containsSeq pat t

/-- Attempt of `\b(20\d{2})\b` at the current position (the word boundary
    before the position is checked by the caller). -/
def yearAt : List Char → Option (Char × Char)
  | c1 :: c2 :: c3 :: c4 :: rest =>
    if (c1 == '2') && (c2 == '0') && isDigitC c3 && isDigitC c4 &&
        (match rest with | [] => true | e :: _ => !isWordChar e) then
      some (c3, c4)
    else none
  | _ => none

/-- Line 73: `re.search(r'\b(20\d{2})\b', s)`, scanning left to right; the
    Bool records whether the previous character was a word character. -/
def findYearAux : Bool → List Char → Option (Char × Char)
  | _, [] => none
  | prevW, c :: t =>
    match (if prevW then none else yearAt (c :: t)) with
    | some p => some p
    | none => findYearAux (isWordChar c) t

/-- Python `s.split(sep)[0]`: the segment before the first occurrence. -/
def beforeSep (sep : List Char) : List Char → List Char
  | [] => []
  | c :: t => if leadsWith sep (c :: t) then [] else c :: beforeSep sep t

/-- The seven weekday names of the alternation on lines 82, 87, 89. -/
def weekdayNames : List (List Char) :=
  [("Monday").data, ("Tuesday").data, ("Wednesday").data, ("Thursday").data,
   ("Friday").data, ("Saturday").data, ("Sunday").data]

/-- Lines 82/89: `re.sub(r'^(Monday|...|Sunday),?\s*', '', s)`. -/
def stripComma (l : List Char) : List Char :=
  match l with
  | ',' :: t => t
  | r => r

def dropWeekday (l : List Char) : List Char :=
  match weekdayNames.find? (fun w => leadsWith w l) with
  | some w => (stripComma (l.drop w.length)).dropWhile isWsChar
  | none => l

/-- Line 87: `re.match(r'^(Monday|...|Sunday)', s)`. -/
def startsWithWeekday (l : List Char) : Bool := weekdayNames.any (fun w => leadsWith w l)

/-- The two-character ordinal suffixes st, nd, rd, th. -/
def isOrdPair (a b : Char) : Bool :=
  (a == 's' && b == 't') || (a == 'n' && b == 'd') ||
    (a == 'r' && b == 'd') || (a == 't' && b == 'h')

/-- Lines 83/91/98: `re.sub(r'(\d+)(st|nd|rd|th)', r'\1', s)`.  A suffix can
    only follow the last digit of a run, so the global substitution equals
    dropping each suffix pair that immediately follows a digit. -/
def remOrd : List Char → List Char
  | c :: s1 :: s2 :: t =>
    if isDigitC c && isOrdPair s1 s2 then c :: remOrd t
    else c :: remOrd (s1 :: s2 :: t)
  | l => l

/-- Lines 93/99: `re.sub(r'\s*20\d{2}$', '', s)`. -/
def stripTrailYear (l : List Char) : List Char :=
  match l.reverse with
  | d2 :: d1 :: c2 :: c1 :: rest =>
    if (c1 == '2') && (c2 == '0') && isDigitC d1 && isDigitC d2 then
      (rest.dropWhile isWsChar).reverse
    else l
  | _ => l

/-- The full month names of `%B` (CPython locale data). -/
def fullMonthNames : List (List Char) :=
  [("January").data, ("February").data, ("March").data, ("April").data,
   ("May").data, ("June").data, ("July").data, ("August").data,
   ("September").data, ("October").data, ("November").data, ("December").data]

/-- The abbreviated month names of `%b`. -/
def abbrMonthNames : List (List Char) :=
  [("Jan").data, ("Feb").data, ("Mar").data, ("Apr").data, ("May").data,
   ("Jun").data, ("Jul").data, ("Aug").data, ("Sep").data, ("Oct").data,
   ("Nov").data, ("Dec").data]

/-- Case-insensitive literal leading-segment test (IGNORECASE matching). -/
def ciLeads : List Char → List Char → Bool
  | [], _ => true
  | _ :: _, [] => false
  | p :: ps, c :: cs => decide (lowerVal p = lowerVal c) && ciLeads ps cs

/-- Match one name of an alternation, returning its 1-based index and the
    remainder.  The name lists used are prefix-free up to case, so at most
    one name can match and the alternation order is immaterial. -/
def matchNameAux : Nat → List (List Char) → List Char → Option (Nat × List Char)
  | _, [], _ => none
  | i, n :: ns, l => if ciLeads n l then some (i + 1, l.drop n.length) else matchNameAux (i + 1) ns l

/-- A literal whitespace in a strptime format: `\s+`, greedy.  The token
    after it never begins with whitespace, so maximal munch is exact. -/
def wsPlus : List Char → Option (List Char)
  | [] => none
  | c :: t => if isWsChar c then some (t.dropWhile isWsChar) else none

/-- `%d`: the regex alternation `3[01]|[12]\d|0[1-9]|[1-9]`, as the ordered
    candidate list the matcher backtracks through. -/
def dayCands (l : List Char) : List (Nat × List Char) :=
  (match l with
   | c :: d :: t =>
     if (c == '3') && ((d == '0') || (d == '1')) then [(30 + digitVal d, t)] else []
   | _ => []) ++
  (match l with
   | c :: d :: t =>
     if ((c == '1') || (c == '2')) && isDigitC d then [(digitVal c * 10 + digitVal d, t)] else []
   | _ => []) ++
  (match l with
   | c :: d :: t =>
     if (c == '0') && isDigitC d && !(d == '0') then [(digitVal d, t)] else []
   | _ => []) ++
  (match l with
   | c :: t => if isDigitC c && !(c == '0') then [(digitVal c, t)] else []
   | _ => [])

/-- `%Y` at the end of a format: exactly four digits, then the string must
    be fully consumed (the "unconverted data remains" check). -/
def yearEnd : List Char → Option Nat
  | [a, b, c, d] =>
    if isDigitC a && isDigitC b && isDigitC c && isDigitC d then
      some (digitVal a * 1000 + digitVal b * 100 + digitVal c * 10 + digitVal d)
    else none
  | _ => none

/-- After `%d`: match ` %B %Y` (or ` %b %Y`), giving month and year. -/
def afterDay (months : List (List Char)) (r : List Char) : Option (Nat × Nat) :=
  (wsPlus r).bind fun r1 =>
    (matchNameAux 0 months r1).bind fun pm =>
      (wsPlus pm.2).bind fun r3 =>
        (yearEnd r3).map fun y => (pm.1, y)

/-- Formats `%d %B %Y` and `%d %b %Y`; result is (year, month, day). -/
def fmtDayMonthYear (months : List (List Char)) (l : List Char) : Option (Nat × Nat × Nat) :=
  (dayCands l).findSome? (fun p => (afterDay months p.2).map (fun q => (q.2, q.1, p.1)))

/-- Formats `%B %d %Y` and `%b %d %Y`; result is (year, month, day). -/
def fmtMonthDayYear (months : List (List Char)) (l : List Char) : Option (Nat × Nat × Nat) :=
  (matchNameAux 0 months l).bind fun pm =>
    (wsPlus pm.2).bind fun r2 =>
      (dayCands r2).findSome? fun p =>
        (wsPlus p.2).bind fun r3 =>
          (yearEnd r3).map fun y => (y, pm.1, p.1)

/-- Formats `%A %d %B %Y` and `%A %d %b %Y`; the weekday value is parsed
    and discarded, as in `_strptime` when a full date is present. -/
def fmtWeekdayDayMonthYear (months : List (List Char)) (l : List Char) : Option (Nat × Nat × Nat) :=
  (matchNameAux 0 weekdayNames l).bind fun pw =>
    (wsPlus pw.2).bind fun r2 => fmtDayMonthYear months r2

/-- Gregorian leap-year rule used by `datetime`. -/
def isLeap (y : Nat) : Bool := decide ((y % 4 = 0 ∧ y % 100 ≠ 0) ∨ y % 400 = 0)

/-- Days in a month, as validated by the `datetime.date` constructor. -/
def daysInMonth (y m : Nat) : Nat :=
  if m = 2 then (if isLeap y then 29 else 28)
  else if m = 4 ∨ m = 6 ∨ m = 9 ∨ m = 11 then 30
  else 31

/-- Constructibility check of `datetime.date(year, month, day)` (the month
    is always 1..12 here, coming from a name alternation). -/
def validYMD (y m d : Nat) : Bool :=
  decide (1 ≤ y ∧ y ≤ 9999 ∧ 1 ≤ d ∧ d ≤ daysInMonth y m)

/-- Wrap a raw format result in the date-constructor check; a ValueError
    falls through to the next format (`continue` on line 121). -/
def checked (r : Option (Nat × Nat × Nat)) : Option PyDate :=
  match r with
  | none => none
  | some (y, m, d) => if validYMD y m d then some ⟨y, m, d⟩ else none

/-- Lines 106-121: the ordered format list tried by `parse_event_date`. -/
def tryFormats (l : List Char) : Option PyDate :=
  [fmtDayMonthYear fullMonthNames, fmtDayMonthYear abbrMonthNames,
   fmtMonthDayYear fullMonthNames, fmtMonthDayYear abbrMonthNames,
   fmtWeekdayDayMonthYear fullMonthNames, fmtWeekdayDayMonthYear abbrMonthNames].findSome?
    (fun f => checked (f l))

/-- The placeholder text of line 69. -/
def tbcPat : List Char := ("Date to be confirmed").data

/-- The range separator of lines 79-80. -/
def sepPat : List Char := (" - ").data

/-- Lines 72-74: the year characters used for `cleaned_date_str` — the
    first `\b20\d{2}\b` of the text, else the default "2025". -/
def yearChars (l : List Char) : List Char :=
  match findYearAux false l with
  | some p => ['2', '0', p.1, p.2]
  | none => ['2', '0', '2', '5']

/-- Lines 78-100: the format-dependent cleaning of the date text, before
    the year is appended. -/
def mkBody (l : List Char) : List Char :=
  if containsSeq sepPat l then
    remOrd (dropWeekday (pyStripChars (beforeSep sepPat l)))
  else if startsWithWeekday l then
    pyStripChars (stripTrailYear (remOrd (dropWeekday l)))
  else
    pyStripChars (stripTrailYear (remOrd l))

/-- Lines 84/94/100 and 103: append the year, remove commas, strip. -/
def mkCleaned (l : List Char) : List Char :=
  pyStripChars ((mkBody l ++ ' ' :: yearChars l).filter (fun c => !(c == ',')))

/-- Lines 59-127: `UNFCCCEventSpider.parse_event_date`. -/
def parse_event_date (raw : String) : Option PyDate :=
  if isMonthHeader (normSpaces raw.data) then none
  else if containsSeq tbcPat (normSpaces raw.data) then none
  else tryFormats (mkCleaned (normSpaces raw.data))

example : parse_event_date ("1st October - 3rd October 2025") = some ⟨2025, 10, 1⟩ := by decide

example : parse_event_date ("Thursday, 2nd October 2025") = some ⟨2025, 10, 2⟩ := by decide

example : parse_event_date ("OCTOBER 2025") = none := by decide

example : parse_event_date ("Date to be confirmed") = none := by decide

example : parse_event_date ("12 Nov 2025") = some ⟨2025, 11, 12⟩ := by decide

/-! ## The paginated table walker (events.py, `parse_all_pages`, lines 129-314) -/

/-- Line 34. -/
def START_DATE : PyDate := ⟨2025, 10, 1⟩

/-- Line 35. -/
def END_DATE : PyDate := ⟨2025, 11, 10⟩

/-- Line 207: `self.START_DATE <= parsed_date <= self.END_DATE`. -/
def inWindow (d : PyDate) : Bool := START_DATE.leb d && d.leb END_DATE

/-- Python `str.strip()` on a `String`. -/
def pyStripStr (s : String) : String := ⟨pyStripChars s.data⟩

/-- One `<tr>` of the events table, reduced to the selector results the
    spider reads: the text fragments of the first cell and, for each of the
    columns 2, 3, 4 probed on lines 213-233, the first link href, the first
    link text, and the first cell text. -/
structure TableRow where
  dateTexts : List String
  col2url : Option String
  col3url : Option String
  col4url : Option String
  col2atext : Option String
  col3atext : Option String
  col4atext : Option String
  col2text : Option String
  col3text : Option String
  col4text : Option String

/-- Line 188: `" ".join([text.strip() for text in date_texts if text.strip()])`. -/
def joinedDateStr (texts : List String) : String :=
  String.intercalate (" ") ((texts.map pyStripStr).filter (fun s => !(s == "")))

/-- Python truthiness of an optional string: `None` and `""` are falsy. -/
def truthy (o : Option String) : Option String :=
  match o with
  | some s => if s = "" then none else some s
  | none => none

/-- Lines 213-217: probe columns 2, 3, 4 for the first truthy link href. -/
def rowUrl (r : TableRow) : Option String :=
  (truthy r.col2url).orElse (fun _ => (truthy r.col3url).orElse (fun _ => truthy r.col4url))

/-- `title and title.strip()` then use `title.strip()`. -/
def truthyStripped (o : Option String) : Option String :=
  match o with
  | some s => if pyStripStr s = "" then none else some (pyStripStr s)
  | none => none

/-- Lines 219-233: title from the first truthy link text of columns 2-4,
    else from the first truthy cell text, else "Unknown Title". -/
def rowTitle (r : TableRow) : String :=
  match [r.col2atext, r.col3atext, r.col4atext].findSome? truthyStripped with
  | some t => t
  | none =>
    match [r.col2text, r.col3text, r.col4text].findSome? truthyStripped with
    | some t => t
    | none => ("Unknown Title")

/-- The run-scoped crawl state: the seen-URL set of line 42 (as a list with
    membership insertion) and the detail requests yielded so far (line 248),
    each recorded by its full URL. -/
structure CrawlAcc where
  seen : List String
  emitted : List String

/-- The in-page scan state: crawl state plus the per-page earliest/latest
    parsed dates of lines 180-181 and 200-204. -/
structure PageScan where
  acc : CrawlAcc
  earliest : Option PyDate
  latest : Option PyDate

/-- Lines 201-202. -/
def updEarliest (e : Option PyDate) (d : PyDate) : Option PyDate :=
  match e with
  | none => some d
  | some e0 => if d.ltb e0 then some d else some e0

/-- Lines 203-204. -/
def updLatest (e : Option PyDate) (d : PyDate) : Option PyDate :=
  match e with
  | none => some d
  | some e0 => if e0.ltb d then some d else some e0

/-- Lines 238-259: if the full URL was seen before, skip the row (line
    239 `continue`); otherwise record it as seen and yield the detail
    request. -/
def tryEmit (acc : CrawlAcc) (fu : String) : CrawlAcc :=
  if fu ∈ acc.seen then acc else ⟨fu :: acc.seen, acc.emitted ++ [fu]⟩

/-- Lines 183-261: processing of one table row.  `join` abstracts
    `response.urljoin`. -/
def processRow (join : String → String) (st : PageScan) (r : TableRow) : PageScan :=
  let ds := joinedDateStr r.dateTexts
  if ds = "" then st
  else
    match parse_event_date ds with
    | none => st
    | some d =>
      let e' := updEarliest st.earliest d
      let l' := updLatest st.latest d
      if inWindow d then
        match rowUrl r with
        | some u => ⟨tryEmit st.acc (join u), e', l'⟩
        | none => ⟨st.acc, e', l'⟩
      else ⟨st.acc, e', l'⟩

/-- One iteration of the page loop body over the rows of the current page,
    with the per-page date range starting empty. -/
def processPage (join : String → String) (acc : CrawlAcc) (rows : List TableRow) : PageScan :=
  rows.foldl (processRow join) ⟨acc, none, none⟩

/-- Lines 157-302: the pagination loop.  `pages` is the sequence of table
    contents that successive "next page" clicks present; an empty remainder
    models the next control being disabled.  `pnum` is `page_num` before
    the increment at line 158; the guard `page_num < 50` is the safety cap. -/
def crawlLoop (join : String → String) : Nat → CrawlAcc → List (List TableRow) → CrawlAcc
  | _, acc, [] => acc
  | pnum, acc, rows :: rest =>
    if pnum < 50 then
      if rows.isEmpty then acc
      else
        if (match (processPage join acc rows).earliest with
            | some e => END_DATE.ltb e
            | none => false) then (processPage join acc rows).acc
        else if (match (processPage join acc rows).latest with
            | some lt => PyDate.ltb lt START_DATE
            | none => false) then (processPage join acc rows).acc
        else crawlLoop join (pnum + 1) (processPage join acc rows).acc rest
    else acc

/-- A whole run: `__init__` starts with an empty seen-URL set (lines 39-42). -/
def crawl (join : String → String) (pages : List (List TableRow)) : CrawlAcc :=
  crawlLoop join 0 ⟨[], []⟩ pages

/-! ## The detail extractor (events.py, `parse_with_gemini` lines 316-392,
    `parse_generic` lines 471-505) -/

/-- The nested title/theme/speakers mapping of lines 378-382. -/
structure TitleThemeSpeakers where
  title : String
  theme : String
  speakers : String
deriving DecidableEq, Repr

/-- `Cop30ScraperItem` (items.py lines 3-9), as filled by the spider. -/
structure Cop30Item where
  Scheduled : String
  Time_Location : String
  Organizer : String
  Tags : String
  Title_Theme_Speakers : TitleThemeSpeakers
deriving DecidableEq, Repr

/-- Lines 486-487: the keyword list of the fallback tag generator. -/
def unfcccTerms : List String :=
  [("cop"), ("cmp"), ("cma"), ("sbi"), ("sbsta"), ("nda"), ("ndc"), ("paris"),
   ("kyoto"), ("mitigation"), ("adaptation"), ("finance"), ("technology"),
   ("transparency"), ("workshop"), ("meeting"), ("conference")]

/-- Python `pat in s` on `String`. -/
def strContains (s pat : String) : Bool := containsSeq pat.data s.data

/-- ASCII lower-casing of one character (`str.lower()`; the strings this
    program lowers are ASCII). -/
def lowerChar (c : Char) : Char :=
  if 65 ≤ c.toNat ∧ c.toNat ≤ 90 then Char.ofNat (c.toNat + 32) else c

/-- ASCII upper-casing of one character. -/
def upperChar (c : Char) : Char :=
  if 97 ≤ c.toNat ∧ c.toNat ≤ 122 then Char.ofNat (c.toNat - 32) else c

/-- Python `str.lower()` on the ASCII range. -/
def pyLower (s : String) : String := ⟨s.data.map lowerChar⟩

/-- Python `str.title()` for the single-word keyword strings of line 491:
    upper-case the first character, lower-case the rest. -/
def pyTitle (s : String) : String :=
  match s.data with
  | [] => ⟨[]⟩
  | c :: t => ⟨upperChar c :: t.map lowerChar⟩

/-- Lines 486-491: the title-cased UNFCCC terms occurring in the lowered
    URL or the lowered title. -/
def keywordTags (url_lower title_lower : String) : List String :=
  (unfcccTerms.filter (fun t => strContains url_lower t || strContains title_lower t)).map
    pyTitle

/-- Line 493: the keyword tags joined with ", " and capped at 5, with the
    "UNFCCC Event" default when no term occurs. -/
def genericTags (url title : String) : String :=
  if keywordTags (pyLower url) (pyLower title) ≠ [] then
    String.intercalate (", ") ((keywordTags (pyLower url) (pyLower title)).take 5)
  else ("UNFCCC Event")

/-- Lines 471-505: `parse_generic`, the fallback item builder.  `headings`
    models `response.css('h1, h2::text').getall()`. -/
def parse_generic (url error_msg event_date list_title : String)
    (headings : List String) : Cop30Item :=
  let title := if list_title ≠ ("N/A") then list_title else ("Scraping Failed")
  let theme := if headings ≠ [] then String.intercalate (" | ") (headings.take 3) else error_msg
  { Scheduled := event_date, Time_Location := ("N/A"), Organizer := url,
    Tags := genericTags url title,
    Title_Theme_Speakers := ⟨title, theme, ("N/A")⟩ }

/-- The decoded `tags` JSON value of line 367: a string, a list, or
    something else. -/
inductive JsonTags where
  | fromStr (v : String)
  | fromList (v : List String)
  | otherVal

/-- The decoded JSON object of line 360, reduced to the keys the spider
    reads. -/
structure GeminiData where
  time_and_location : Option String
  title : Option String
  theme : Option String
  speakers : Option String
  tags : Option JsonTags

/-- `list(dict.fromkeys(tags))` (line 375): keep the first occurrence of
    each element, in order. -/
def dedupFirst (l : List String) : List String :=
  l.foldl (fun acc t => if t ∈ acc then acc else acc ++ [t]) []

/-- Python `s.split(",")` on the character list. -/
def splitCommaCs : List Char → List (List Char)
  | [] => [[]]
  | c :: t =>
    if c = ',' then [] :: splitCommaCs t
    else
      match splitCommaCs t with
      | h :: r => (c :: h) :: r
      | [] => [[c]]

/-- Python `s.split(",")`. -/
def pySplitComma (s : String) : List String := (splitCommaCs s.data).map (fun l => ⟨l⟩)

/-- Line 370: `[tag.strip() for tag in tags.split(",") if tag.strip()]`. -/
def cleanSplit (s : String) : List String :=
  ((pySplitComma s).map pyStripStr).filter (fun t => !(t == ""))

/-- Lines 367-375: normalization of the `tags` value. -/
def normTags (j : JsonTags) : List String :=
  match j with
  | .fromStr v => (dedupFirst (cleanSplit v)).take 8
  | .fromList v => (dedupFirst v).take 8
  | .otherVal => (dedupFirst [("N/A")]).take 8

/-- Outcome of the Gemini call and of decoding its text, abstracting the
    external service, the code-fence stripping and `json.loads` of lines
    322-360: key absent, empty response text, text that does not decode to
    a JSON object (or any other raised exception, line 390), or a decoded
    object. -/
inductive GeminiOutcome where
  | noKey
  | emptyText
  | invalidJson (err : String)
  | ok (data : GeminiData)

/-- Lines 316-392: `parse_with_gemini` as a function of the call outcome;
    every failure path yields the `parse_generic` fallback item instead of
    raising. -/
def parse_with_gemini (url event_date list_title : String) (headings : List String)
    (o : GeminiOutcome) : Cop30Item :=
  match o with
  | .noKey => parse_generic url ("No API key") event_date list_title headings
  | .emptyText => parse_generic url ("Empty Gemini response") event_date list_title headings
  | .invalidJson e => parse_generic url e event_date list_title headings
  | .ok d =>
    { Scheduled := event_date,
      Time_Location := d.time_and_location.getD ("N/A"),
      Organizer := url,
      Tags := String.intercalate (", ") (normTags (d.tags.getD (.fromList []))),
      Title_Theme_Speakers :=
        ⟨d.title.getD list_title, d.theme.getD ("N/A"), d.speakers.getD ("N/A")⟩ }

/-! ## The sink writer (pipelines.py, `DynamicMVPPipeline`) -/

/-- Line 63: the header row. -/
def headerRow (format_columns : List String) : List String :=
  [("Scraped At"), ("Website URL")] ++ format_columns ++ [("Status")]

/-- Lines 83-96: the data row appended for one item; `item` models
    `item.get`. -/
def processItemRow (format_columns : List String) (timestamp : String)
    (item : String → Option String) : List String :=
  ([timestamp, (item ("website_url")).getD ("N/A")] ++
    format_columns.map (fun c => (item c).getD ("N/A"))) ++
    [(item ("scraping_status")).getD ("Success")]

/-- Lines 145-150: the session-end separator row. -/
def separatorRow (format_columns : List String) (sepText summaryText : String) : List String :=
  [sepText, summaryText] ++ List.replicate ((2 + format_columns.length + 1) - 2) ("")

/-! ## Supporting lemmas -/

theorem dedupFirst_fold (l : List String) :
    ∀ acc : List String,
      ∃ k, l.foldl (fun a t => if t ∈ a then a else a ++ [t]) acc = acc ++ k ∧
        k.Sublist l ∧ (acc.Nodup → (acc ++ k).Nodup) ∧ ∀ x ∈ l, x ∈ acc ++ k := by
  induction l with
  | nil => exact fun acc => ⟨[], by simp⟩
  | cons t l ih =>
    intro acc
    by_cases h : t ∈ acc
    · obtain ⟨k, hk, hs, hn, hm⟩ := ih acc
      refine ⟨k, by simpa [h] using hk, hs.cons t, hn, ?_⟩
      intro x hx
      rcases List.mem_cons.mp hx with rfl | hx
      · exact List.mem_append_left _ h
      · exact hm x hx
    · obtain ⟨k, hk, hs, hn, hm⟩ := ih (acc ++ [t])
      refine ⟨t :: k, ?_, hs.cons₂ t, ?_, ?_⟩
      · simpa [h, List.append_assoc] using hk
      · intro hacc
        have : (acc ++ [t]).Nodup := by
          simp [List.nodup_append, hacc, h]
        simpa [List.append_assoc] using hn this
      · intro x hx
        rcases List.mem_cons.mp hx with rfl | hx
        · simp
        · simpa [List.append_assoc] using hm x hx

theorem dedupFirst_sublist (l : List String) : (dedupFirst l).Sublist l := by
  obtain ⟨k, hk, hs, -, -⟩ := dedupFirst_fold l []
  simpa [dedupFirst, hk] using hs

theorem dedupFirst_nodup (l : List String) : (dedupFirst l).Nodup := by
  obtain ⟨k, hk, -, hn, -⟩ := dedupFirst_fold l []
  simpa [dedupFirst, hk] using hn List.nodup_nil

theorem mem_dedupFirst_of_mem (l : List String) (x : String) (hx : x ∈ l) :
    x ∈ dedupFirst l := by
  obtain ⟨k, hk, -, -, hm⟩ := dedupFirst_fold l []
  simpa [dedupFirst, hk] using hm x hx

/-- Invariant of the run-scoped crawl state: the seen set and the emitted
    request list hold no duplicates, and every emitted URL is seen. -/
def AccOk (a : CrawlAcc) : Prop :=
  a.seen.Nodup ∧ a.emitted.Nodup ∧ ∀ u ∈ a.emitted, u ∈ a.seen

theorem tryEmit_ok {a : CrawlAcc} (h : AccOk a) (fu : String) : AccOk (tryEmit a fu) := by
  obtain ⟨hs, he, hm⟩ := h
  unfold tryEmit
  by_cases hf : fu ∈ a.seen
  · simpa [hf] using ⟨hs, he, hm⟩
  · refine ⟨by simp [hf, hs], ?_, ?_⟩
    · simp only [hf, if_false]
      have : fu ∉ a.emitted := fun hc => hf (hm fu hc)
      simp [List.nodup_append, he, this]
    · intro u hu
      simp only [hf, if_false] at hu ⊢
      rcases List.mem_append.mp hu with hu | hu
      · exact List.mem_cons_of_mem _ (hm u hu)
      · simp only [List.mem_singleton] at hu
        simp [hu]

theorem processRow_acc_cases (join : String → String) (st : PageScan) (r : TableRow) :
    (processRow join st r).acc = st.acc ∨
      ∃ fu, (processRow join st r).acc = tryEmit st.acc fu := by
  unfold processRow
  by_cases h1 : joinedDateStr r.dateTexts = ""
  · simp [h1]
  · simp only [h1, if_false]
    cases hp : parse_event_date (joinedDateStr r.dateTexts) with
    | none => simp
    | some d =>
      by_cases hw : inWindow d = true
      · cases hu : rowUrl r with
        | none => simp [hw]
        | some u => exact Or.inr ⟨join u, by simp [hw]⟩
      · simp [hw]

theorem processRow_ok (join : String → String) (st : PageScan) (r : TableRow)
    (h : AccOk st.acc) : AccOk (processRow join st r).acc := by
  rcases processRow_acc_cases join st r with hc | ⟨fu, hc⟩
  · rwa [hc]
  · rw [hc]; exact tryEmit_ok h fu

theorem foldRows_ok (join : String → String) (rows : List TableRow) :
    ∀ st : PageScan, AccOk st.acc → AccOk (rows.foldl (processRow join) st).acc := by
  induction rows with
  | nil => exact fun st h => h
  | cons r rows ih => exact fun st h => ih _ (processRow_ok join st r h)

theorem processPage_ok (join : String → String) (acc : CrawlAcc) (rows : List TableRow)
    (h : AccOk acc) : AccOk (processPage join acc rows).acc :=
  foldRows_ok join rows ⟨acc, none, none⟩ h

theorem crawlLoop_ok (join : String → String) (pages : List (List TableRow)) :
    ∀ (pnum : Nat) (acc : CrawlAcc), AccOk acc → AccOk (crawlLoop join pnum acc pages) := by
  induction pages with
  | nil => exact fun _ _ h => h
  | cons rows rest ih =>
    intro pnum acc h
    unfold crawlLoop
    by_cases hp : pnum < 50
    · simp only [hp, if_true]
      by_cases hr : rows.isEmpty
      · simpa [hr] using h
      · have hacc := processPage_ok join acc rows h
        simp only [hr, Bool.false_eq_true, if_false]
        split
        · exact hacc
        · split
          · exact hacc
          · exact ih _ _ hacc
    · simpa [hp] using h

/-! ## Per-page earliest/latest tracking -/

/-- The parsed date that one row contributes to the per-page date range
    (lines 190-204): none when the joined date text is empty or
    unparseable. -/
def rowDate (r : TableRow) : Option PyDate :=
  if joinedDateStr r.dateTexts = "" then none
  else parse_event_date (joinedDateStr r.dateTexts)

/-- All parsed dates of a page, in row order. -/
def parsedDates (rows : List TableRow) : List PyDate := rows.filterMap rowDate

theorem processRow_earliest (join : String → String) (st : PageScan) (r : TableRow) :
    (processRow join st r).earliest =
      match rowDate r with
      | none => st.earliest
      | some d => updEarliest st.earliest d := by
  unfold processRow rowDate
  by_cases h1 : joinedDateStr r.dateTexts = ""
  · simp [h1]
  · simp only [h1, if_false]
    cases hp : parse_event_date (joinedDateStr r.dateTexts) with
    | none => simp
    | some d =>
      by_cases hw : inWindow d = true
      · cases hu : rowUrl r with
        | none => simp [hw]
        | some u => simp [hw]
      · simp [hw]

theorem processRow_latest (join : String → String) (st : PageScan) (r : TableRow) :
    (processRow join st r).latest =
      match rowDate r with
      | none => st.latest
      | some d => updLatest st.latest d := by
  unfold processRow rowDate
  by_cases h1 : joinedDateStr r.dateTexts = ""
  · simp [h1]
  · simp only [h1, if_false]
    cases hp : parse_event_date (joinedDateStr r.dateTexts) with
    | none => simp
    | some d =>
      by_cases hw : inWindow d = true
      · cases hu : rowUrl r with
        | none => simp [hw]
        | some u => simp [hw]
      · simp [hw]

theorem foldRows_earliest (join : String → String) (rows : List TableRow) :
    ∀ st : PageScan,
      (rows.foldl (processRow join) st).earliest =
        (parsedDates rows).foldl updEarliest st.earliest := by
  induction rows with
  | nil => intro st; simp [parsedDates]
  | cons r rows ih =>
    intro st
    have hr := processRow_earliest join st r
    cases hd : rowDate r with
    | none =>
      simp only [List.foldl_cons, parsedDates, List.filterMap_cons, hd]
      rw [ih, hr, hd]
      rfl
    | some d =>
      simp only [List.foldl_cons, parsedDates, List.filterMap_cons, hd]
      rw [ih, hr, hd]
      rfl

theorem foldRows_latest (join : String → String) (rows : List TableRow) :
    ∀ st : PageScan,
      (rows.foldl (processRow join) st).latest =
        (parsedDates rows).foldl updLatest st.latest := by
  induction rows with
  | nil => intro st; simp [parsedDates]
  | cons r rows ih =>
    intro st
    have hr := processRow_latest join st r
    cases hd : rowDate r with
    | none =>
      simp only [List.foldl_cons, parsedDates, List.filterMap_cons, hd]
      rw [ih, hr, hd]
      rfl
    | some d =>
      simp only [List.foldl_cons, parsedDates, List.filterMap_cons, hd]
      rw [ih, hr, hd]
      rfl

theorem foldl_updEarliest_mem (ds : List PyDate) :
    ∀ (e0 : Option PyDate) (e : PyDate), ds.foldl updEarliest e0 = some e →
      e0 = some e ∨ e ∈ ds := by
  induction ds with
  | nil => intro e0 e h; exact Or.inl h
  | cons d ds ih =>
    intro e0 e h
    rcases ih (updEarliest e0 d) e h with hc | hc
    · cases e0 with
      | none =>
        simp only [updEarliest, Option.some.injEq] at hc
        exact Or.inr (by simp [hc])
      | some x =>
        simp only [updEarliest] at hc
        by_cases hlt : d.ltb x = true
        · simp only [hlt, if_true, Option.some.injEq] at hc
          exact Or.inr (by simp [hc])
        · simp only [hlt, if_false] at hc
          exact Or.inl hc
    · exact Or.inr (List.mem_cons_of_mem _ hc)

theorem foldl_updLatest_mem (ds : List PyDate) :
    ∀ (e0 : Option PyDate) (e : PyDate), ds.foldl updLatest e0 = some e →
      e0 = some e ∨ e ∈ ds := by
  induction ds with
  | nil => intro e0 e h; exact Or.inl h
  | cons d ds ih =>
    intro e0 e h
    rcases ih (updLatest e0 d) e h with hc | hc
    · cases e0 with
      | none =>
        simp only [updLatest, Option.some.injEq] at hc
        exact Or.inr (by simp [hc])
      | some x =>
        simp only [updLatest] at hc
        by_cases hlt : x.ltb d = true
        · simp only [hlt, if_true, Option.some.injEq] at hc
          exact Or.inr (by simp [hc])
        · simp only [hlt, if_false] at hc
          exact Or.inl hc
    · exact Or.inr (List.mem_cons_of_mem _ hc)

theorem foldl_updEarliest_isSome (ds : List PyDate) :
    ∀ e0 : Option PyDate, e0.isSome ∨ ds ≠ [] → (ds.foldl updEarliest e0).isSome := by
  induction ds with
  | nil =>
    intro e0 h
    rcases h with h | h
    · exact h
    · exact absurd rfl h
  | cons d ds ih =>
    intro e0 _
    apply ih
    left
    cases e0 with
    | none => simp [updEarliest]
    | some x => simp only [updEarliest]; split <;> simp

theorem foldl_updLatest_isSome (ds : List PyDate) :
    ∀ e0 : Option PyDate, e0.isSome ∨ ds ≠ [] → (ds.foldl updLatest e0).isSome := by
  induction ds with
  | nil =>
    intro e0 h
    rcases h with h | h
    · exact h
    · exact absurd rfl h
  | cons d ds ih =>
    intro e0 _
    apply ih
    left
    cases e0 with
    | none => simp [updLatest]
    | some x => simp only [updLatest]; split <;> simp

/-- A date strictly below the window start is not strictly beyond its end. -/
theorem ltb_below_start_not_beyond_end (e : PyDate) :
    PyDate.ltb e START_DATE = true → END_DATE.ltb e = false := by
  simp only [PyDate.ltb, START_DATE, END_DATE]
  split_ifs <;> simp_all <;> omega

/-! ## Claim theorems (part 1) -/

/-- C3: within one crawl run no detail URL is added to the seen-URL set
    twice, and each detail URL triggers at most one detail-extraction
    request, even when it occurs on several table pages. -/
theorem seen_urls_dedup (join : String → String) (pages : List (List TableRow)) :
    (crawl join pages).seen.Nodup ∧ ∀ u, (crawl join pages).emitted.count u ≤ 1 := by
  have h : AccOk (crawl join pages) :=
    crawlLoop_ok join pages 0 ⟨[], []⟩ ⟨List.nodup_nil, List.nodup_nil, by simp⟩
  exact ⟨h.1, fun u => List.nodup_iff_count_le_one.mp h.2.1 u⟩

/-- C4: on a page with at least one successfully parsed date, the walker
    stops (processes no further page) when every parsed date of the page is
    beyond the window end, and likewise when every parsed date is below the
    window start. -/
theorem page_outside_window_stops (join : String → String) (pnum : Nat) (acc : CrawlAcc)
    (rows : List TableRow) (rest : List (List TableRow))
    (hp : pnum < 50) (hne : parsedDates rows ≠ []) :
    ((∀ d ∈ parsedDates rows, END_DATE.ltb d = true) →
        crawlLoop join pnum acc (rows :: rest) = (processPage join acc rows).acc) ∧
    ((∀ d ∈ parsedDates rows, PyDate.ltb d START_DATE = true) →
        crawlLoop join pnum acc (rows :: rest) = (processPage join acc rows).acc) := by
  have hrows : rows.isEmpty = false := by
    cases rows with
    | nil => simp [parsedDates] at hne
    | cons r t => rfl
  have hE : (processPage join acc rows).earliest = (parsedDates rows).foldl updEarliest none :=
    foldRows_earliest join rows ⟨acc, none, none⟩
  have hL : (processPage join acc rows).latest = (parsedDates rows).foldl updLatest none :=
    foldRows_latest join rows ⟨acc, none, none⟩
  obtain ⟨e, he⟩ := Option.isSome_iff_exists.mp (foldl_updEarliest_isSome _ none (Or.inr hne))
  obtain ⟨lt, hl⟩ := Option.isSome_iff_exists.mp (foldl_updLatest_isSome _ none (Or.inr hne))
  have heMem : e ∈ parsedDates rows := by
    rcases foldl_updEarliest_mem _ none e he with h | h
    · exact absurd h (by simp)
    · exact h
  have hlMem : lt ∈ parsedDates rows := by
    rcases foldl_updLatest_mem _ none lt hl with h | h
    · exact absurd h (by simp)
    · exact h
  have hE' : (processPage join acc rows).earliest = some e := hE.trans he
  have hL' : (processPage join acc rows).latest = some lt := hL.trans hl
  constructor
  · intro hall
    unfold crawlLoop
    rw [if_pos hp]
    simp only [hrows, Bool.false_eq_true, if_false]
    have hc : (match (processPage join acc rows).earliest with
        | some e => END_DATE.ltb e
        | none => false) = true := by
      rw [hE']
      exact hall e heMem
    rw [if_pos hc]
  · intro hall
    unfold crawlLoop
    rw [if_pos hp]
    simp only [hrows, Bool.false_eq_true, if_false]
    have hc1 : (match (processPage join acc rows).earliest with
        | some e => END_DATE.ltb e
        | none => false) = false := by
      rw [hE']
      exact ltb_below_start_not_beyond_end e (hall e heMem)
    have hc2 : (match (processPage join acc rows).latest with
        | some lt => PyDate.ltb lt START_DATE
        | none => false) = true := by
      rw [hL']
      exact hall lt hlMem
    rw [if_neg (by simp [hc1]), if_pos hc2]

/-- A concrete row dated beyond the window end (2025-11-12). -/
def demoRowLate : TableRow :=
  ⟨[("Wednesday, 12th November 2025")], some ("https://unfccc.int/event/a"), none, none,
    some ("Event A"), none, none, none, none, none⟩

theorem page_outside_window_stops_witness :
    0 < 50 ∧ parsedDates [demoRowLate] ≠ [] ∧
    crawlLoop id 0 ⟨[], []⟩ ([demoRowLate] :: [[demoRowLate]]) =
      (processPage id ⟨[], []⟩ [demoRowLate]).acc :=
  ⟨by decide, by decide,
    (page_outside_window_stops id 0 ⟨[], []⟩ [demoRowLate] [[demoRowLate]]
      (by decide) (by decide)).1 (by decide)⟩

/-- C6: a month/year header such as "OCTOBER 2025", or any text containing
    the "Date to be confirmed" placeholder, makes `parse_event_date` return
    none — such rows are non-dates, not errors. -/
theorem header_or_placeholder_absent (s : String)
    (h : isMonthHeader (normSpaces s.data) = true ∨
        containsSeq tbcPat (normSpaces s.data) = true) :
    parse_event_date s = none := by
  unfold parse_event_date
  rcases h with h | h
  · simp [h]
  · simp [h]

theorem header_or_placeholder_absent_witness :
    (isMonthHeader (normSpaces ("OCTOBER 2025").data) = true ∨
        containsSeq tbcPat (normSpaces ("OCTOBER 2025").data) = true) ∧
      parse_event_date ("OCTOBER 2025") = none ∧
      (isMonthHeader (normSpaces ("Date to be confirmed").data) = true ∨
        containsSeq tbcPat (normSpaces ("Date to be confirmed").data) = true) ∧
      parse_event_date ("Date to be confirmed") = none :=
  ⟨Or.inl (by decide), header_or_placeholder_absent ("OCTOBER 2025") (Or.inl (by decide)),
   Or.inr (by decide),
   header_or_placeholder_absent ("Date to be confirmed") (Or.inr (by decide))⟩

/-- C7: for the range input "1st October - 3rd October 2025" the date
    filter returns October 1, 2025 — only the start of the range is used. -/
theorem range_input_uses_start_date :
    parse_event_date ("1st October - 3rd October 2025") = some ⟨2025, 10, 1⟩ := by decide

/-- C9: the in-window test is inclusive at both boundary dates
    (2025-10-01 and 2025-11-10) and rejects the days immediately outside. -/
theorem window_inclusive_boundaries :
    inWindow START_DATE = true ∧ inWindow END_DATE = true ∧
    inWindow ⟨2025, 10, 1⟩ = true ∧ inWindow ⟨2025, 11, 10⟩ = true ∧
    inWindow ⟨2025, 9, 30⟩ = false ∧ inWindow ⟨2025, 11, 11⟩ = false := by decide

/-- C10: the header row, every per-item data row, and the session-end
    separator row all have the same width: 2 leading cells, one cell per
    configured format column, and 1 trailing status cell. -/
theorem sheet_rows_match_header (format_columns : List String)
    (timestamp sepText summaryText : String) (item : String → Option String) :
    (headerRow format_columns).length = 2 + format_columns.length + 1 ∧
    (processItemRow format_columns timestamp item).length = (headerRow format_columns).length ∧
    (separatorRow format_columns sepText summaryText).length = (headerRow format_columns).length := by
  refine ⟨?_, ?_, ?_⟩ <;> simp [headerRow, processItemRow, separatorRow] <;> omega

/-- C1 counterexample: on a service response that is not valid JSON, the
    substituted fallback record does not have every configured field equal
    to "N/A" — its Tags and Organizer fields differ from the sentinel. -/
theorem gemini_fallback_not_all_na :
    ¬ (((parse_with_gemini ("https://example.org/page") ("N/A") ("N/A") []
          (.invalidJson ("Expecting value"))).Tags = ("N/A")) ∧
        ((parse_with_gemini ("https://example.org/page") ("N/A") ("N/A") []
          (.invalidJson ("Expecting value"))).Organizer = ("N/A"))) := by decide

/-- C1 amended: on an empty or undecodable service response
    `parse_with_gemini` does not raise but substitutes the `parse_generic`
    fallback record; that record's Time_Location and speakers fields are
    the sentinel "N/A", its Organizer is the page URL, its Tags is the
    comma-joined title-cased UNFCCC keywords occurring in the URL or title
    (capped at five) and is "UNFCCC Event" exactly when no keyword occurs,
    and its theme carries the error text whenever the detail page has no
    h1/h2 headings (the item has no status field). -/
theorem gemini_decode_failure_fallback (url e event_date list_title : String)
    (headings : List String) :
    parse_with_gemini url event_date list_title headings (.invalidJson e) =
      parse_generic url e event_date list_title headings ∧
    parse_with_gemini url event_date list_title headings .emptyText =
      parse_generic url ("Empty Gemini response") event_date list_title headings ∧
    (parse_generic url e event_date list_title headings).Time_Location = ("N/A") ∧
    (parse_generic url e event_date list_title headings).Organizer = url ∧
    (parse_generic url e event_date list_title headings).Tags =
      genericTags url (if list_title ≠ ("N/A") then list_title else ("Scraping Failed")) ∧
    (keywordTags (pyLower url)
        (pyLower (if list_title ≠ ("N/A") then list_title else ("Scraping Failed"))) = [] →
      (parse_generic url e event_date list_title headings).Tags = ("UNFCCC Event")) ∧
    (keywordTags (pyLower url)
        (pyLower (if list_title ≠ ("N/A") then list_title else ("Scraping Failed"))) ≠ [] →
      (parse_generic url e event_date list_title headings).Tags =
        String.intercalate (", ")
          ((keywordTags (pyLower url)
            (pyLower (if list_title ≠ ("N/A") then list_title else ("Scraping Failed")))).take
              5)) ∧
    (parse_generic url e event_date list_title headings).Title_Theme_Speakers.speakers =
      ("N/A") ∧
    (headings = [] →
      (parse_generic url e event_date list_title headings).Title_Theme_Speakers.theme = e) := by
  refine ⟨rfl, rfl, rfl, rfl, rfl, ?_, ?_, rfl, ?_⟩
  · intro h
    show genericTags url (if list_title ≠ ("N/A") then list_title else ("Scraping Failed")) =
      ("UNFCCC Event")
    unfold genericTags
    rw [if_neg (not_not_intro h)]
  · intro h
    show genericTags url (if list_title ≠ ("N/A") then list_title else ("Scraping Failed")) = _
    unfold genericTags
    rw [if_pos h]
  · intro h
    subst h
    simp [parse_generic]

theorem gemini_decode_failure_fallback_witness :
    (parse_generic ("https://example.org/page") ("Expecting value") ("N/A") ("N/A")
        []).Tags = ("UNFCCC Event") ∧
    (parse_generic ("https://unfccc.int/event/cop30-workshop") ("Expecting value") ("N/A")
        ("N/A") []).Tags =
      String.intercalate (", ")
        ((keywordTags (pyLower ("https://unfccc.int/event/cop30-workshop"))
          (pyLower ("Scraping Failed"))).take 5) ∧
    (parse_generic ("https://example.org/page") ("Expecting value") ("N/A") ("N/A")
        []).Title_Theme_Speakers.theme = ("Expecting value") :=
  ⟨(gemini_decode_failure_fallback ("https://example.org/page") ("Expecting value") ("N/A")
      ("N/A") []).2.2.2.2.2.1 (by decide),
   (gemini_decode_failure_fallback ("https://unfccc.int/event/cop30-workshop")
      ("Expecting value") ("N/A") ("N/A") []).2.2.2.2.2.2.1 (by decide),
   (gemini_decode_failure_fallback ("https://example.org/page") ("Expecting value") ("N/A")
      ("N/A") []).2.2.2.2.2.2.2.2 rfl⟩

/-- C8: when the service delivers tags as a single string, the stored tag
    list is the comma-split, trimmed, nonempty entries with duplicates
    removed keeping each tag's first occurrence, capped at 8 entries. -/
theorem tags_normalized (d : GeminiData) (s url event_date list_title : String)
    (headings : List String) (hts : d.tags = some (.fromStr s)) :
    (parse_with_gemini url event_date list_title headings (.ok d)).Tags =
      String.intercalate (", ") (normTags (.fromStr s)) ∧
    normTags (.fromStr s) = (dedupFirst (cleanSplit s)).take 8 ∧
    (normTags (.fromStr s)).Sublist (cleanSplit s) ∧
    (normTags (.fromStr s)).Nodup ∧
    (normTags (.fromStr s)).length ≤ 8 ∧
    (∀ x ∈ cleanSplit s, x ∈ dedupFirst (cleanSplit s)) := by
  refine ⟨?_, rfl, ?_, ?_, ?_, fun x hx => mem_dedupFirst_of_mem _ x hx⟩
  · simp [parse_with_gemini, hts]
  · exact (List.take_sublist _ _).trans (dedupFirst_sublist _)
  · exact List.Nodup.sublist (List.take_sublist _ _) (dedupFirst_nodup _)
  · exact List.length_take_le 8 (dedupFirst (cleanSplit s))

/-- The tags value used by the C8 witness. -/
def demoGemini : GeminiData :=
  ⟨some ("Room 1"), some ("T"), some ("Th"), some ("Sp"), some (.fromStr ("A, B ,A, C, A"))⟩

theorem tags_normalized_witness :
    (parse_with_gemini ("u") ("d") ("lt") [] (.ok demoGemini)).Tags =
      String.intercalate (", ") (normTags (.fromStr ("A, B ,A, C, A"))) :=
  (tags_normalized demoGemini ("A, B ,A, C, A") ("u") ("d") ("lt") [] rfl).1

/-! ## Character-class facts -/

theorem ws_toNat_lt (c : Char) (h : isWsChar c = true) : c.toNat < 48 := by
  simp only [isWsChar, Bool.or_eq_true, beq_iff_eq] at h
  rcases h with ((((h | h) | h) | h) | h) | h <;> subst h <;> decide

theorem digit_not_ws (c : Char) (h : isDigitC c = true) : isWsChar c = false := by
  rcases hw : isWsChar c with _ | _
  · rfl
  · simp only [isDigitC, decide_eq_true_eq] at h
    have := ws_toNat_lt c hw
    omega

theorem digit_ne (c x : Char) (h : isDigitC c = true) (hx : isDigitC x = false) : c ≠ x := by
  intro he
  subst he
  rw [h] at hx
  cases hx

theorem digit_not_ord_left (x y : Char) (h : isDigitC x = true) : isOrdPair x y = false := by
  have hx : ∀ c : Char, 97 ≤ c.toNat → (x == c) = false := by
    intro c hc
    rw [beq_eq_false_iff_ne]
    intro he
    subst he
    simp only [isDigitC, decide_eq_true_eq] at h
    omega
  simp [isOrdPair, hx 's' (by decide), hx 'n' (by decide), hx 'r' (by decide),
    hx 't' (by decide)]

/-! ## Generic scanning lemmas -/

theorem dropWhile_append_cases (p : Char → Bool) (l₁ l₂ : List Char) :
    (l₁ ++ l₂).dropWhile p = (l₁.dropWhile p) ++ l₂ ∨
      (l₁ ++ l₂).dropWhile p = l₂.dropWhile p := by
  induction l₁ with
  | nil => exact Or.inr rfl
  | cons c t ih =>
    by_cases hc : p c = true
    · simpa [List.dropWhile_cons, hc] using ih
    · left
      simp [List.dropWhile_cons, hc]

theorem dropWhile_append_of_ne_nil (p : Char → Bool) (l₁ l₂ : List Char)
    (h : l₁.dropWhile p ≠ []) :
    (l₁ ++ l₂).dropWhile p = (l₁.dropWhile p) ++ l₂ := by
  induction l₁ with
  | nil => exact absurd rfl h
  | cons c t ih =>
    by_cases hc : p c = true
    · rw [List.dropWhile_cons] at h
      simp only [hc, if_true] at h
      simpa [List.dropWhile_cons, hc] using ih h
    · simp [List.dropWhile_cons, hc]

theorem leadsWith_self_append (p r : List Char) : leadsWith p (p ++ r) = true := by
  induction p with
  | nil => rfl
  | cons c t ih => simpa [leadsWith] using ih

theorem ciLeads_self_append (p r : List Char) : ciLeads p (p ++ r) = true := by
  induction p with
  | nil => rfl
  | cons c t ih => simpa [ciLeads] using ih

/-- One character of `n` differs from the corresponding character of `w`
    inside `w`: then `n` cannot lead `w ++ r` for any `r`. -/
def mismatchIn : List Char → List Char → Bool
  | n :: ns, c :: cs => !(n == c) || mismatchIn ns cs
  | _, _ => false

theorem leadsWith_eq_false_of_mismatchIn (n : List Char) :
    ∀ w r : List Char, mismatchIn n w = true → leadsWith n (w ++ r) = false := by
  induction n with
  | nil => intro w r h; cases w <;> cases h
  | cons p ps ih =>
    intro w r h
    cases w with
    | nil => cases h
    | cons c cs =>
      simp only [mismatchIn, Bool.or_eq_true, Bool.not_eq_true'] at h
      rcases h with h | h
      · simp [leadsWith, h]
      · simp [leadsWith, ih cs r h]

/-- Case-insensitive variant of `mismatchIn`. -/
def ciMismatchIn : List Char → List Char → Bool
  | n :: ns, c :: cs => !(decide (lowerVal n = lowerVal c)) || ciMismatchIn ns cs
  | _, _ => false

theorem ciLeads_eq_false_of_ciMismatchIn (n : List Char) :
    ∀ w r : List Char, ciMismatchIn n w = true → ciLeads n (w ++ r) = false := by
  induction n with
  | nil => intro w r h; cases w <;> cases h
  | cons p ps ih =>
    intro w r h
    cases w with
    | nil => cases h
    | cons c cs =>
      simp only [ciMismatchIn, Bool.or_eq_true, Bool.not_eq_true'] at h
      rcases h with h | h
      · simp [ciLeads, h]
      · simp [ciLeads, ih cs r h]

theorem find_leads_self (w : List Char) (r : List Char) :
    ∀ ns : List (List Char), w ∈ ns →
      (∀ n ∈ ns, n ≠ w → leadsWith n (w ++ r) = false) →
      ns.find? (fun n => leadsWith n (w ++ r)) = some w := by
  intro ns
  induction ns with
  | nil => intro h; cases h
  | cons n ns ih =>
    intro hmem hpf
    by_cases he : n = w
    · subst he
      simp [List.find?_cons, leadsWith_self_append]
    · have hn : leadsWith n (w ++ r) = false := hpf n (List.mem_cons_self n ns) he
      have hmem' : w ∈ ns := by
        rcases List.mem_cons.mp hmem with h | h
        · exact absurd h.symm he
        · exact h
      simp only [List.find?_cons, hn]
      exact ih hmem' (fun n' hn' => hpf n' (List.mem_cons_of_mem _ hn'))

/-! ## Whitespace normalization on well-spaced strings -/

theorem collapseWs_cons_nonws (c : Char) (r : List Char) (b : Bool)
    (hc : isWsChar c = false) : collapseWs (c :: r) b = c :: collapseWs r false := by
  simp [collapseWs, hc]

theorem collapseWs_nows_append (u : List Char) (r : List Char)
    (hu : ∀ c ∈ u, isWsChar c = false) :
    collapseWs (u ++ r) false = u ++ collapseWs r false := by
  induction u with
  | nil => rfl
  | cons c t ih =>
    have hc := hu c (List.mem_cons_self c t)
    rw [List.cons_append, collapseWs_cons_nonws c _ false hc,
      ih (fun x hx => hu x (List.mem_cons_of_mem _ hx))]
    rfl

theorem collapseWs_space_cons (r : List Char) :
    collapseWs (' ' :: r) false = ' ' :: collapseWs r true := rfl

theorem collapseWs_space_block (u r : List Char)
    (hu : ∀ c ∈ u, isWsChar c = false) (hne : u ≠ []) :
    collapseWs (' ' :: (u ++ r)) false = ' ' :: (u ++ collapseWs r false) := by
  cases u with
  | nil => exact absurd rfl hne
  | cons c t =>
    have hc := hu c (List.mem_cons_self c t)
    rw [collapseWs_space_cons, List.cons_append, collapseWs_cons_nonws c _ true hc,
      collapseWs_nows_append t r (fun x hx => hu x (List.mem_cons_of_mem _ hx))]
    rfl

theorem dropWhile_ws_cons_nonws (c : Char) (r : List Char) (hc : isWsChar c = false) :
    (c :: r).dropWhile isWsChar = c :: r := by
  simp [List.dropWhile_cons, hc]

theorem pyStrip_eq_self (l : List Char) (h1 : ∀ c, l.head? = some c → isWsChar c = false)
    (h2 : ∀ c, l.getLast? = some c → isWsChar c = false) : pyStripChars l = l := by
  unfold pyStripChars
  cases hl : l with
  | nil => rfl
  | cons c t =>
    have hc := h1 c (by rw [hl]; rfl)
    rw [← hl, show l.dropWhile isWsChar = l from ?_]
    · cases hr : l.reverse with
      | nil => simp_all
      | cons d s =>
        have hd : l.getLast? = some d := by
          rw [← List.head?_reverse, hr]; rfl
        rw [dropWhile_ws_cons_nonws d s (h2 d hd), ← hr, List.reverse_reverse]
    · rw [hl]
      exact dropWhile_ws_cons_nonws c t hc

/-! ## Absence of the placeholder and the range separator -/

theorem leadsWith_prefix_true (p₁ p₂ : List Char) :
    ∀ s : List Char, leadsWith (p₁ ++ p₂) s = true → leadsWith p₁ s = true := by
  induction p₁ with
  | nil => intro s _; rfl
  | cons c t ih =>
    intro s h
    cases s with
    | nil => cases h
    | cons x xs =>
      simp only [List.cons_append, leadsWith, Bool.and_eq_true] at h ⊢
      exact ⟨h.1, ih xs h.2⟩

theorem containsSeq_mono (p₁ p₂ : List Char) (l : List Char)
    (h : containsSeq p₁ l = false) : containsSeq (p₁ ++ p₂) l = false := by
  induction l with
  | nil =>
    cases hp : p₁ with
    | nil => simp [containsSeq, leadsWith, hp] at h
    | cons c t => subst hp; rfl
  | cons c t ih =>
    simp only [containsSeq, Bool.or_eq_false_iff] at h ⊢
    refine ⟨?_, ih h.2⟩
    rcases hl : leadsWith (p₁ ++ p₂) (c :: t) with _ | _
    · rfl
    · exact absurd (leadsWith_prefix_true p₁ p₂ _ hl) (by simp [h.1])

theorem contains_pair_take (x y : Char) (u : List Char) :
    ∀ r : List Char, containsSeq [x, y] (u ++ r.take 1) = false →
      containsSeq [x, y] r = false → containsSeq [x, y] (u ++ r) = false := by
  induction u with
  | nil => intro r _ hr; exact hr
  | cons c t ih =>
    intro r hu hr
    simp only [List.cons_append, containsSeq, Bool.or_eq_false_iff] at hu ⊢
    refine ⟨?_, ih r hu.2 hr⟩
    rcases hl : leadsWith [x, y] (c :: (t ++ r)) with _ | _
    · rfl
    · exfalso
      simp only [leadsWith, Bool.and_eq_true, beq_iff_eq] at hl
      obtain ⟨hx, hl2⟩ := hl
      cases t with
      | nil =>
        cases r with
        | nil => cases hl2
        | cons rc rt =>
          simp only [leadsWith, Bool.and_eq_true, beq_iff_eq] at hl2
          obtain ⟨hy, -⟩ := hl2
          simp [containsSeq, leadsWith, hx, hy] at hu
      | cons tc tt =>
        simp only [List.cons_append, leadsWith, Bool.and_eq_true, beq_iff_eq] at hl2
        obtain ⟨hy, -⟩ := hl2
        simp [containsSeq, leadsWith, hx, hy] at hu

theorem contains_pair_no_head (x y : Char) (l : List Char) (hx : x ∉ l) :
    containsSeq [x, y] l = false := by
  induction l with
  | nil => rfl
  | cons c t ih =>
    simp only [containsSeq, Bool.or_eq_false_iff]
    have hc : c ≠ x := fun he => hx (he ▸ List.mem_cons_self c t)
    constructor
    · simp only [leadsWith]
      rw [show (x == c) = false from beq_eq_false_iff_ne.mpr (Ne.symm hc)]
      rfl
    · exact ih (fun hm => hx (List.mem_cons_of_mem _ hm))

theorem sepPat_eq : sepPat = [' ', '-', ' '] := rfl

theorem sep_needs_dash (l : List Char) :
    containsSeq sepPat l = true → '-' ∈ l := by
  induction l with
  | nil => intro h; exact absurd h (by decide)
  | cons c t ih =>
    intro h
    simp only [containsSeq, sepPat_eq, Bool.or_eq_true] at h
    rcases h with h | h
    · cases t with
      | nil => simp [leadsWith] at h
      | cons d s =>
        simp only [leadsWith, Bool.and_eq_true, beq_iff_eq] at h
        obtain ⟨-, hd, -⟩ := h
        subst hd
        simp
    · exact List.mem_cons_of_mem _ (ih (by rw [sepPat_eq]; exact h))

/-! ## Year search: scanning over blocks that cannot start a year match -/

theorem yearAt_ne_two (c : Char) (X : List Char) (hc : (c == '2') = false) :
    yearAt (c :: X) = none := by
  cases X with
  | nil => rfl
  | cons c2 X2 =>
    cases X2 with
    | nil => rfl
    | cons c3 X3 =>
      cases X3 with
      | nil => rfl
      | cons c4 t =>
        have : c ≠ '2' := beq_eq_false_iff_ne.mp hc
        simp [yearAt, this]

theorem yearAt_ne_zero (c1 c2 : Char) (X : List Char) (hc : (c2 == '0') = false) :
    yearAt (c1 :: c2 :: X) = none := by
  cases X with
  | nil => rfl
  | cons c3 X3 =>
    cases X3 with
    | nil => rfl
    | cons c4 t =>
      have : c2 ≠ '0' := beq_eq_false_iff_ne.mp hc
      simp [yearAt, this]

theorem yearAt_nondigit3 (c1 c2 c3 : Char) (X : List Char) (hc : isDigitC c3 = false) :
    yearAt (c1 :: c2 :: c3 :: X) = none := by
  cases X with
  | nil => rfl
  | cons c4 t => simp [yearAt, hc]

/-- A nonempty trailing segment `v` of a block from which no `\b20\d{2}\b`
    match can start, whatever characters follow the block. -/
def yearBlockedAt : List Char → Bool
  | ['2'] => false
  | ['2', '0'] => false
  | '2' :: '0' :: c :: _ => !isDigitC c
  | '2' :: c :: _ => !(c == '0')
  | _ => true

theorem yearAt_blocked (v : List Char) (hb : yearBlockedAt v = true) (hne : v ≠ []) :
    ∀ r : List Char, yearAt (v ++ r) = none := by
  intro r
  match v, hne with
  | [c1], _ =>
    by_cases hc : c1 = '2'
    · subst hc; cases hb
    · exact yearAt_ne_two c1 r (beq_eq_false_iff_ne.mpr hc)
  | [c1, c2], _ =>
    by_cases hc : c1 = '2'
    · subst hc
      by_cases hc2 : c2 = '0'
      · subst hc2; cases hb
      · exact yearAt_ne_zero '2' c2 r (beq_eq_false_iff_ne.mpr hc2)
    · exact yearAt_ne_two c1 _ (beq_eq_false_iff_ne.mpr hc)
  | c1 :: c2 :: c3 :: v', _ =>
    by_cases hc : c1 = '2'
    · subst hc
      by_cases hc2 : c2 = '0'
      · subst hc2
        have h3 : isDigitC c3 = false := by
          simpa [yearBlockedAt] using hb
        exact yearAt_nondigit3 '2' '0' c3 _ h3
      · exact yearAt_ne_zero '2' c2 _ (beq_eq_false_iff_ne.mpr hc2)
    · exact yearAt_ne_two c1 _ (beq_eq_false_iff_ne.mpr hc)

theorem findYear_skip (c : Char) (r : List Char) :
    findYearAux true (c :: r) = findYearAux (isWordChar c) r := rfl

theorem findYear_step (c : Char) (r : List Char) (hya : yearAt (c :: r) = none) :
    findYearAux false (c :: r) = findYearAux (isWordChar c) r := by
  rw [findYearAux.eq_def]
  simp [hya]

theorem findYear_block (u : List Char) :
    ∀ (r : List Char) (p : Bool),
      (∀ c ∈ u, isWordChar c = true) →
      (∀ v, v ≠ [] → v.IsSuffix u → yearBlockedAt v = true) →
      u ≠ [] →
      findYearAux p (u ++ r) = findYearAux true r := by
  induction u with
  | nil => intro r p _ _ h; exact absurd rfl h
  | cons c t ih =>
    intro r p hw hb _
    have hblk : yearBlockedAt (c :: t) = true :=
      hb (c :: t) (by simp) (List.suffix_refl _)
    have hya : yearAt ((c :: t) ++ r) = none := yearAt_blocked _ hblk (by simp) r
    have step : findYearAux p (c :: (t ++ r)) = findYearAux (isWordChar c) (t ++ r) := by
      cases p
      · exact findYear_step c (t ++ r) (by simpa using hya)
      · rw [findYear_skip]
    rw [List.cons_append, step, hw c (List.mem_cons_self c t)]
    cases t with
    | nil => rfl
    | cons c2 t2 =>
      exact ih r true (fun x hx => hw x (List.mem_cons_of_mem _ hx))
        (fun v hv hvs => hb v hv (hvs.trans (List.suffix_cons c _))) (by simp)

theorem findYear_comma (r : List Char) (p : Bool) :
    findYearAux p (',' :: r) = findYearAux false r := by
  cases p
  · rw [findYear_step ',' r (yearAt_ne_two ',' r (by decide))]; rfl
  · rw [findYear_skip]; rfl

theorem findYear_space (r : List Char) (p : Bool) :
    findYearAux p (' ' :: r) = findYearAux false r := by
  cases p
  · rw [findYear_step ' ' r (yearAt_ne_two ' ' r (by decide))]; rfl
  · rw [findYear_skip]; rfl

theorem findYear_hit (a b : Char) (ha : isDigitC a = true) (hb : isDigitC b = true) :
    findYearAux false ['2', '0', a, b] = some (a, b) := by
  unfold findYearAux
  simp [yearAt, ha, hb]

/-! ## Ordinal-suffix removal lemmas -/

theorem remOrd_cons_nondigit (c : Char) (X : List Char) (hc : isDigitC c = false) :
    remOrd (c :: X) = c :: remOrd X := by
  cases X with
  | nil => rfl
  | cons s1 X1 =>
    cases X1 with
    | nil => rfl
    | cons s2 t => simp [remOrd, hc]

theorem remOrd_nodigit_append (u : List Char) (r : List Char)
    (hu : ∀ c ∈ u, isDigitC c = false) : remOrd (u ++ r) = u ++ remOrd r := by
  induction u with
  | nil => rfl
  | cons c t ih =>
    rw [List.cons_append, remOrd_cons_nondigit c _ (hu c (List.mem_cons_self c t)),
      ih (fun x hx => hu x (List.mem_cons_of_mem _ hx))]
    rfl

theorem remOrd_year_tail (a b : Char) (ha : isDigitC a = true) (_hb : isDigitC b = true) :
    remOrd [' ', '2', '0', a, b] = [' ', '2', '0', a, b] := by
  rw [remOrd_cons_nondigit ' ' _ (by decide)]
  have h1 : isOrdPair '0' a = false := by
    simp [isOrdPair, show ('0' == 's') = false from by decide,
      show ('0' == 'n') = false from by decide, show ('0' == 'r') = false from by decide,
      show ('0' == 't') = false from by decide]
  rw [show remOrd ['2', '0', a, b] = '2' :: remOrd ['0', a, b] from by simp [remOrd, h1]]
  rw [show remOrd ['0', a, b] = '0' :: remOrd [a, b] from by
    simp [remOrd, digit_not_ord_left a b ha]]
  rfl

/-! ## Alternation matching -/

/-- Index of a name in an alternation list. -/
def idxIn (w : List Char) : List (List Char) → Nat
  | [] => 0
  | n :: ns => if n = w then 0 else idxIn w ns + 1

theorem matchNameAux_found (w r : List Char) :
    ∀ (ns : List (List Char)) (i : Nat), w ∈ ns →
      (∀ n ∈ ns, n ≠ w → ciLeads n (w ++ r) = false) →
      matchNameAux i ns (w ++ r) = some (i + idxIn w ns + 1, r) := by
  intro ns
  induction ns with
  | nil => intro i h; cases h
  | cons n ns ih =>
    intro i hmem hpf
    by_cases he : n = w
    · subst he
      simp [matchNameAux, ciLeads_self_append, idxIn, List.drop_left]
    · have hn : ciLeads n (w ++ r) = false := hpf n (List.mem_cons_self n ns) he
      have hmem' : w ∈ ns := by
        rcases List.mem_cons.mp hmem with h | h
        · exact absurd h.symm he
        · exact h
      simp only [matchNameAux, hn, Bool.false_eq_true, if_false]
      rw [ih (i + 1) hmem' (fun n' hn' => hpf n' (List.mem_cons_of_mem _ hn'))]
      rw [show idxIn w (n :: ns) = idxIn w ns + 1 from by simp [idxIn, he]]
      exact congrArg (fun k => some (k, r)) (by omega)

theorem wsPlus_space (r : List Char) (h : ∀ c, r.head? = some c → isWsChar c = false) :
    wsPlus (' ' :: r) = some r := by
  show (if isWsChar ' ' = true then some (r.dropWhile isWsChar) else none) = some r
  rw [if_pos (by decide)]
  cases r with
  | nil => rfl
  | cons c t => rw [dropWhile_ws_cons_nonws c t (h c rfl)]

/-! ## The raw-text family of claim C2 -/

/-- The 31 day tokens `<day><ordinal suffix>`. -/
def dayTokens : List (List Char) :=
  [("1st").data, ("2nd").data, ("3rd").data, ("4th").data, ("5th").data, ("6th").data,
   ("7th").data, ("8th").data, ("9th").data, ("10th").data, ("11th").data, ("12th").data,
   ("13th").data, ("14th").data, ("15th").data, ("16th").data, ("17th").data, ("18th").data,
   ("19th").data, ("20th").data, ("21st").data, ("22nd").data, ("23rd").data, ("24th").data,
   ("25th").data, ("26th").data, ("27th").data, ("28th").data, ("29th").data, ("30th").data,
   ("31st").data]

/-- Day number denoted by a day token. -/
def dayValTok (t : List Char) : Nat :=
  (t.takeWhile isDigitC).foldl (fun n c => n * 10 + digitVal c) 0

/-- Month number denoted by a full month name. -/
def monthNum (m : List Char) : Nat := idxIn m fullMonthNames + 1

/-- The raw date text `<Weekday>, <day><ordinal> <Month> 20xy`. -/
def mkWeekdayDateRaw (w t m : List Char) (a b : Char) : String :=
  ⟨w ++ (',' :: ' ' :: (t ++ (' ' :: (m ++ (' ' :: ('2' :: '0' :: a :: b :: []))))))⟩

/-- Block facts shared by weekday names, day tokens and month names. -/
def blockOk (u : List Char) : Bool :=
  !u.isEmpty &&
  u.all (fun c => !isWsChar c && isWordChar c && !(c == ',') && !(c == '-')) &&
  u.tails.all (fun v => v.isEmpty || yearBlockedAt v)

theorem weekday_blockOk : ∀ w ∈ weekdayNames, blockOk w = true := by decide

theorem dayTok_blockOk : ∀ t ∈ dayTokens, blockOk t = true := by decide

theorem month_blockOk : ∀ m ∈ fullMonthNames, blockOk m = true := by decide

/-- Weekday-specific facts: the second character breaks the ALL-CAPS header
    pattern, and weekdays contain no digits. -/
def weekdayOk (w : List Char) : Bool :=
  !(w.dropWhile isUpperAZ).isEmpty &&
  (match w.dropWhile isUpperAZ with
   | c :: _ => !isWsChar c
   | [] => false) &&
  w.all (fun c => !isDigitC c)

theorem weekday_weekdayOk : ∀ w ∈ weekdayNames, weekdayOk w = true := by decide

theorem weekday_pairwise :
    ∀ n ∈ weekdayNames, ∀ w ∈ weekdayNames, n ≠ w → mismatchIn n w = true := by decide

theorem month_pairwise_ci :
    ∀ n ∈ fullMonthNames, ∀ m ∈ fullMonthNames, n ≠ m → ciMismatchIn n m = true := by decide

theorem month_no_da : ∀ m ∈ fullMonthNames, containsSeq ['D', 'a'] (m ++ [' ']) = false := by
  decide

theorem weekday_no_da : ∀ w ∈ weekdayNames, containsSeq ['D', 'a'] (w ++ [',']) = false := by
  decide

theorem dayTok_no_da : ∀ t ∈ dayTokens, containsSeq ['D', 'a'] (t ++ [' ']) = false := by decide

theorem month_no_digit : ∀ m ∈ fullMonthNames, ∀ c ∈ m, isDigitC c = false := by decide

/-- Day-token digit/suffix decomposition facts. -/
def tokShape (t : List Char) : Bool :=
  (match t.takeWhile isDigitC with
   | [x] => isDigitC x && !(x == '0')
   | [x1, x2] =>
     ((x1 == '3') && ((x2 == '0') || (x2 == '1'))) || (((x1 == '1') || (x1 == '2')) && isDigitC x2)
   | _ => false) &&
  (match t.dropWhile isDigitC with
   | [s1, s2] => isOrdPair s1 s2
   | _ => false)

theorem dayTok_shape : ∀ t ∈ dayTokens, tokShape t = true := by decide

theorem dayTok_val_ge_one : ∀ t ∈ dayTokens, 1 ≤ dayValTok t := by decide

theorem blockOk_props (u : List Char) (h : blockOk u = true) :
    u ≠ [] ∧ (∀ c ∈ u, isWsChar c = false) ∧ (∀ c ∈ u, isWordChar c = true) ∧
    (∀ c ∈ u, c ≠ ',') ∧ (∀ c ∈ u, c ≠ '-') ∧
    (∀ v, v ≠ [] → v.IsSuffix u → yearBlockedAt v = true) := by
  simp only [blockOk, Bool.and_eq_true, List.all_eq_true, Bool.not_eq_true',
    Bool.or_eq_true, List.isEmpty_iff] at h
  obtain ⟨⟨h0, h1⟩, h2⟩ := h
  refine ⟨?_, ?_, ?_, ?_, ?_, ?_⟩
  · rintro rfl
    simp at h0
  · intro c hc
    exact ((h1 c hc).1.1.1)
  · intro c hc
    exact ((h1 c hc).1.1.2)
  · intro c hc
    exact beq_eq_false_iff_ne.mp ((h1 c hc).1.2)
  · intro c hc
    exact beq_eq_false_iff_ne.mp ((h1 c hc).2)
  · intro v hv hvs
    rcases h2 v ((List.mem_tails _ _).mpr hvs) with h | h
    · exact absurd h hv
    · exact h

theorem digitVal_le_nine (c : Char) (h : isDigitC c = true) : digitVal c ≤ 9 := by
  simp only [isDigitC, decide_eq_true_eq] at h
  simp only [digitVal]
  omega

theorem ci_other_months (m : List Char) (hm : m ∈ fullMonthNames) (r : List Char) :
    ∀ n ∈ fullMonthNames, n ≠ m → ciLeads n (m ++ r) = false := fun n hn hne =>
  ciLeads_eq_false_of_ciMismatchIn n m r (month_pairwise_ci n hn m hm hne)

theorem yearEnd_hit (a b : Char) (ha : isDigitC a = true) (hb : isDigitC b = true) :
    yearEnd ('2' :: '0' :: a :: b :: []) = some (2000 + 10 * digitVal a + digitVal b) := by
  have hstep : yearEnd ('2' :: '0' :: a :: b :: []) =
      if (isDigitC '2' && isDigitC '0' && isDigitC a && isDigitC b) = true then
        some (digitVal '2' * 1000 + digitVal '0' * 100 + digitVal a * 10 + digitVal b)
      else none := rfl
  rw [hstep, if_pos (by rw [ha, hb]; decide)]
  have h2 : digitVal '2' = 2 := by decide
  have h0 : digitVal '0' = 0 := by decide
  rw [h2, h0]
  exact congrArg some (by omega)

theorem tryFormats_day_month_year (D m : List Char) (a b : Char) (dval : Nat)
    (hm : m ∈ fullMonthNames)
    (ha : isDigitC a = true) (hb : isDigitC b = true)
    (hcands : ∃ cs, dayCands (D ++ (' ' :: (m ++ (' ' :: ('2' :: '0' :: a :: b :: []))))) =
      (dval, ' ' :: (m ++ (' ' :: ('2' :: '0' :: a :: b :: [])))) :: cs)
    (hd1 : 1 ≤ dval)
    (hdv : dval ≤ daysInMonth (2000 + 10 * digitVal a + digitVal b) (monthNum m)) :
    tryFormats (D ++ (' ' :: (m ++ (' ' :: ('2' :: '0' :: a :: b :: []))))) =
      some ⟨2000 + 10 * digitVal a + digitVal b, monthNum m, dval⟩ := by
  obtain ⟨cs, hcands⟩ := hcands
  obtain ⟨hmne, hmws, -, -, -, -⟩ := blockOk_props m (month_blockOk m hm)
  have hstep1 : wsPlus (' ' :: (m ++ (' ' :: ('2' :: '0' :: a :: b :: [])))) =
      some (m ++ (' ' :: ('2' :: '0' :: a :: b :: []))) := by
    apply wsPlus_space
    intro c hc
    cases m with
    | nil => exact absurd rfl hmne
    | cons mc mrest =>
      simp only [List.cons_append, List.head?_cons, Option.some.injEq] at hc
      exact hc ▸ hmws mc (List.mem_cons_self mc mrest)
  have hstep2 : matchNameAux 0 fullMonthNames (m ++ (' ' :: ('2' :: '0' :: a :: b :: []))) =
      some (monthNum m, ' ' :: ('2' :: '0' :: a :: b :: [])) := by
    rw [matchNameAux_found m _ fullMonthNames 0 hm (ci_other_months m hm _)]
    rw [monthNum, Nat.zero_add]
  have hstep3 : wsPlus (' ' :: ('2' :: '0' :: a :: b :: [])) =
      some ('2' :: '0' :: a :: b :: []) := wsPlus_space _ (by
    intro c hc
    simp only [List.head?_cons, Option.some.injEq] at hc
    subst hc
    decide)
  have hafter : afterDay fullMonthNames (' ' :: (m ++ (' ' :: ('2' :: '0' :: a :: b :: [])))) =
      some (monthNum m, 2000 + 10 * digitVal a + digitVal b) := by
    unfold afterDay
    rw [hstep1]
    simp only [Option.some_bind]
    rw [hstep2]
    simp only [Option.some_bind]
    rw [hstep3]
    simp only [Option.some_bind]
    rw [yearEnd_hit a b ha hb]
    rfl
  have hfmt : fmtDayMonthYear fullMonthNames
      (D ++ (' ' :: (m ++ (' ' :: ('2' :: '0' :: a :: b :: []))))) =
      some (2000 + 10 * digitVal a + digitVal b, monthNum m, dval) := by
    unfold fmtDayMonthYear
    rw [hcands, List.findSome?_cons]
    simp [hafter]
  have hvalid : validYMD (2000 + 10 * digitVal a + digitVal b) (monthNum m) dval = true := by
    simp only [validYMD, decide_eq_true_eq]
    have hA := digitVal_le_nine a ha
    have hB := digitVal_le_nine b hb
    exact ⟨by omega, by omega, hd1, hdv⟩
  unfold tryFormats
  rw [List.findSome?_cons]
  simp [checked, hfmt, hvalid]

theorem dayCands_one (x : Char) (R : List Char) (hx : isDigitC x = true)
    (hx0 : (x == '0') = false) :
    dayCands (x :: ' ' :: R) = [(digitVal x, ' ' :: R)] := by
  simp [dayCands, hx, hx0, show isDigitC ' ' = false from by decide,
    show (' ' == '0') = false from by decide, show (' ' == '1') = false from by decide]

theorem dayCands_two (x1 x2 : Char) (R : List Char) (hx1 : isDigitC x1 = true)
    (h3 : (x1 == '3') = false) (h12 : ((x1 == '1') || (x1 == '2')) = true)
    (h0 : (x1 == '0') = false) (hx2 : isDigitC x2 = true) :
    dayCands (x1 :: x2 :: ' ' :: R) =
      [(digitVal x1 * 10 + digitVal x2, ' ' :: R), (digitVal x1, x2 :: ' ' :: R)] := by
  simp [dayCands, hx1, h3, h12, h0, hx2]

theorem dayCands_thirty (x2 : Char) (R : List Char)
    (h01 : ((x2 == '0') || (x2 == '1')) = true) :
    dayCands ('3' :: x2 :: ' ' :: R) =
      [(30 + digitVal x2, ' ' :: R), (3, x2 :: ' ' :: R)] := by
  have hd3 : digitVal '3' = 3 := by decide
  simp [dayCands, h01, hd3, show ('3' == '3') = true from by decide,
    show ('3' == '1') = false from by decide, show ('3' == '2') = false from by decide,
    show ('3' == '0') = false from by decide, show isDigitC '3' = true from by decide]

theorem stripTrailYear_shape (D m : List Char) (a b : Char)
    (ha : isDigitC a = true) (hb : isDigitC b = true)
    (hmne : m ≠ []) (hml : ∀ c cs, m.reverse = c :: cs → isWsChar c = false) :
    stripTrailYear (D ++ (' ' :: (m ++ (' ' :: ('2' :: '0' :: a :: b :: []))))) =
      D ++ (' ' :: m) := by
  have hmr : m.reverse ≠ [] := by
    intro h
    exact hmne (by simpa using congrArg List.reverse h)
  obtain ⟨mc, mrest, hmc⟩ := List.exists_cons_of_ne_nil hmr
  have hrev : (D ++ (' ' :: (m ++ (' ' :: ('2' :: '0' :: a :: b :: []))))).reverse =
      b :: a :: '0' :: '2' :: (' ' :: (m.reverse ++ (' ' :: D.reverse))) := by
    simp
  unfold stripTrailYear
  rw [hrev]
  show (if (('2' == '2') && ('0' == '0') && isDigitC a && isDigitC b) = true
      then ((' ' :: (m.reverse ++ (' ' :: D.reverse))).dropWhile isWsChar).reverse
      else D ++ (' ' :: (m ++ (' ' :: ('2' :: '0' :: a :: b :: []))))) = D ++ (' ' :: m)
  rw [if_pos (by rw [ha, hb]; decide)]
  rw [show (' ' :: (m.reverse ++ (' ' :: D.reverse))).dropWhile isWsChar =
      (m.reverse ++ (' ' :: D.reverse)).dropWhile isWsChar from by
    rw [List.dropWhile_cons, if_pos (show isWsChar ' ' = true from by decide)]]
  rw [hmc, List.cons_append,
    dropWhile_ws_cons_nonws mc _ (hml mc mrest hmc), ← List.cons_append, ← hmc]
  simp

theorem containsSeq_cons_of_head_ne (x y c : Char) (l : List Char) (hc : (x == c) = false) :
    containsSeq [x, y] (c :: l) = containsSeq [x, y] l := by
  simp [containsSeq, leadsWith, hc]

theorem dropWeekday_found (l : List Char) (w : List Char)
    (hf : weekdayNames.find? (fun n => leadsWith n l) = some w) :
    dropWeekday l = (stripComma (l.drop w.length)).dropWhile isWsChar := by
  unfold dropWeekday
  rw [hf]

/-- C2: for every raw date text "<Weekday>, <day><ordinal> <Month> <year>"
    with one of the seven weekday names, one of the 31 day tokens, a full
    month name and a four-digit 20xy year (the year family of the data
    model, ParsedDate always lying in 2000-2099), `parse_event_date`
    returns exactly the calendar date with the matching year, month and
    day, provided that calendar date exists.  The right-hand side does not
    mention the weekday, so the result is independent of which weekday
    name prefixes the text. -/
theorem weekday_date_parses (w t m : List Char) (a b : Char)
    (hw : w ∈ weekdayNames) (ht : t ∈ dayTokens) (hm : m ∈ fullMonthNames)
    (ha : isDigitC a = true) (hb : isDigitC b = true)
    (hdv : dayValTok t ≤ daysInMonth (2000 + 10 * digitVal a + digitVal b) (monthNum m)) :
    parse_event_date (mkWeekdayDateRaw w t m a b) =
      some ⟨2000 + 10 * digitVal a + digitVal b, monthNum m, dayValTok t⟩ := by
  obtain ⟨hwne, hwws, hwword, hwcomma, hwdash, hwblk⟩ := blockOk_props w (weekday_blockOk w hw)
  obtain ⟨htne, htws, htword, htcomma, htdash, htblk⟩ := blockOk_props t (dayTok_blockOk t ht)
  obtain ⟨hmne, hmws, hmword, hmcomma, hmdash, hmblk⟩ := blockOk_props m (month_blockOk m hm)
  obtain ⟨wc, wrest, hwc⟩ := List.exists_cons_of_ne_nil hwne
  obtain ⟨tc, trest, htc⟩ := List.exists_cons_of_ne_nil htne
  have hmrne : m.reverse ≠ [] := by
    intro h
    exact hmne (by simpa using congrArg List.reverse h)
  obtain ⟨mc, mrest, hmc⟩ := List.exists_cons_of_ne_nil hmrne
  have hml : ∀ c cs, m.reverse = c :: cs → isWsChar c = false := by
    intro c cs hr
    have hcm : c ∈ m := by
      have : c ∈ m.reverse := by rw [hr]; exact List.mem_cons_self c cs
      simpa using this
    exact hmws c hcm
  have htchead : isWsChar tc = false := htws tc (by rw [htc]; exact List.mem_cons_self tc trest)
  have hdata : (mkWeekdayDateRaw w t m a b).data =
      w ++ (',' :: ' ' :: (t ++ (' ' :: (m ++ (' ' :: ['2', '0', a, b]))))) := rfl
  -- Stage 1: whitespace normalization is the identity on this text
  have hcol : collapseWs (w ++ (',' :: ' ' :: (t ++ (' ' :: (m ++ (' ' :: ['2', '0', a, b]))))))
      false = w ++ (',' :: ' ' :: (t ++ (' ' :: (m ++ (' ' :: ['2', '0', a, b]))))) := by
    rw [collapseWs_nows_append w _ hwws,
      collapseWs_cons_nonws ',' _ false (by decide),
      collapseWs_space_block t _ htws htne,
      collapseWs_space_block m _ hmws hmne,
      collapseWs_space_cons,
      collapseWs_cons_nonws '2' _ true (by decide),
      collapseWs_cons_nonws '0' _ false (by decide),
      collapseWs_cons_nonws a _ false (digit_not_ws a ha),
      collapseWs_cons_nonws b _ false (digit_not_ws b hb)]
    rfl
  have hlast : (w ++ (',' :: ' ' :: (t ++ (' ' :: (m ++ (' ' :: ['2', '0', a, b])))))).getLast? =
      some b := by
    rw [List.getLast?_eq_head?_reverse,
      show (w ++ (',' :: ' ' :: (t ++ (' ' :: (m ++ (' ' :: ['2', '0', a, b])))))).reverse =
        b :: a :: '0' :: '2' :: ' ' ::
          (m.reverse ++ (' ' :: (t.reverse ++ (' ' :: ',' :: w.reverse)))) from by simp]
    rfl
  have hnorm : normSpaces (w ++ (',' :: ' ' :: (t ++ (' ' :: (m ++ (' ' :: ['2', '0', a, b])))))) =
      w ++ (',' :: ' ' :: (t ++ (' ' :: (m ++ (' ' :: ['2', '0', a, b]))))) := by
    unfold normSpaces
    rw [hcol]
    apply pyStrip_eq_self
    · intro c hc
      rw [hwc, List.cons_append, List.head?_cons] at hc
      simp only [Option.some.injEq] at hc
      subst hc
      exact hwws wc (by rw [hwc]; exact List.mem_cons_self wc wrest)
    · intro c hc
      rw [hlast] at hc
      simp only [Option.some.injEq] at hc
      subst hc
      exact digit_not_ws b hb
  -- Stage 2: the month-header pattern does not match
  have hhdr : isMonthHeader
      (w ++ (',' :: ' ' :: (t ++ (' ' :: (m ++ (' ' :: ['2', '0', a, b])))))) = false := by
    have hwko := weekday_weekdayOk w hw
    simp only [weekdayOk, Bool.and_eq_true] at hwko
    obtain ⟨⟨hd1, hd2⟩, -⟩ := hwko
    have hd1' : List.dropWhile isUpperAZ w ≠ [] := by
      intro h
      rw [h] at hd1
      exact absurd hd1 (by decide)
    obtain ⟨u0, urest, hu⟩ := List.exists_cons_of_ne_nil hd1'
    rw [hu] at hd2
    have h2 : (!(isWsChar u0)) = true := hd2
    have hd2' : isWsChar u0 = false := by
      cases hIs : isWsChar u0
      · rfl
      · rw [hIs] at h2
        exact absurd h2 (by decide)
    unfold isMonthHeader
    rw [dropWhile_append_of_ne_nil isUpperAZ w _ hd1', hu, List.cons_append,
      List.takeWhile_cons_of_neg (by simp [hd2'])]
    simp
  -- Stage 3: the placeholder "Date to be confirmed" does not occur
  have hda : containsSeq ['D', 'a']
      (w ++ (',' :: ' ' :: (t ++ (' ' :: (m ++ (' ' :: ['2', '0', a, b])))))) = false := by
    apply contains_pair_take
    · exact weekday_no_da w hw
    · rw [containsSeq_cons_of_head_ne 'D' 'a' ',' _ (by decide),
        containsSeq_cons_of_head_ne 'D' 'a' ' ' _ (by decide)]
      apply contains_pair_take
      · exact dayTok_no_da t ht
      · rw [containsSeq_cons_of_head_ne 'D' 'a' ' ' _ (by decide)]
        apply contains_pair_take
        · exact month_no_da m hm
        · rw [containsSeq_cons_of_head_ne 'D' 'a' ' ' _ (by decide)]
          apply contains_pair_no_head
          intro hmem
          simp only [List.mem_cons, List.not_mem_nil, or_false] at hmem
          rcases hmem with h | h | h | h
          · exact absurd h (by decide)
          · exact absurd h (by decide)
          · subst h
            exact absurd ha (by decide)
          · subst h
            exact absurd hb (by decide)
  have htbc : containsSeq tbcPat
      (w ++ (',' :: ' ' :: (t ++ (' ' :: (m ++ (' ' :: ['2', '0', a, b])))))) = false := by
    rw [show tbcPat = ['D', 'a'] ++ ("te to be confirmed").data from rfl]
    exact containsSeq_mono _ _ _ hda
  -- Stage 4: no " - " separator occurs
  have hsep : containsSeq sepPat
      (w ++ (',' :: ' ' :: (t ++ (' ' :: (m ++ (' ' :: ['2', '0', a, b])))))) = false := by
    rcases hcs : containsSeq sepPat
        (w ++ (',' :: ' ' :: (t ++ (' ' :: (m ++ (' ' :: ['2', '0', a, b])))))) with _ | _
    · rfl
    · exfalso
      have hmem := sep_needs_dash _ hcs
      rcases List.mem_append.mp hmem with h | h
      · exact hwdash '-' h rfl
      rcases List.mem_cons.mp h with h | h
      · exact absurd h (by decide)
      rcases List.mem_cons.mp h with h | h
      · exact absurd h (by decide)
      rcases List.mem_append.mp h with h | h
      · exact htdash '-' h rfl
      rcases List.mem_cons.mp h with h | h
      · exact absurd h (by decide)
      rcases List.mem_append.mp h with h | h
      · exact hmdash '-' h rfl
      rcases List.mem_cons.mp h with h | h
      · exact absurd h (by decide)
      rcases List.mem_cons.mp h with h | h
      · exact absurd h (by decide)
      rcases List.mem_cons.mp h with h | h
      · exact absurd h (by decide)
      rcases List.mem_cons.mp h with h | h
      · rw [← h] at ha
        exact absurd ha (by decide)
      rcases List.mem_cons.mp h with h | h
      · rw [← h] at hb
        exact absurd hb (by decide)
      · exact absurd h (List.not_mem_nil '-')
  -- Stage 5: the year search finds exactly the final 20xy
  have hyr : findYearAux false
      (w ++ (',' :: ' ' :: (t ++ (' ' :: (m ++ (' ' :: ['2', '0', a, b])))))) = some (a, b) := by
    rw [findYear_block w _ false hwword hwblk hwne,
      findYear_comma _ true, findYear_space _ false,
      findYear_block t _ false htword htblk htne,
      findYear_space _ true,
      findYear_block m _ false hmword hmblk hmne,
      findYear_space _ true,
      findYear_hit a b ha hb]
  -- Stage 6: the text starts with a weekday name
  have hsw : startsWithWeekday
      (w ++ (',' :: ' ' :: (t ++ (' ' :: (m ++ (' ' :: ['2', '0', a, b])))))) = true := by
    simp only [startsWithWeekday, List.any_eq_true]
    exact ⟨w, hw, leadsWith_self_append w _⟩
  -- Stage 7: the weekday prefix, comma and following space are removed
  have hdw : dropWeekday
      (w ++ (',' :: ' ' :: (t ++ (' ' :: (m ++ (' ' :: ['2', '0', a, b])))))) =
      t ++ (' ' :: (m ++ (' ' :: ['2', '0', a, b]))) := by
    rw [dropWeekday_found _ w (find_leads_self w _ weekdayNames hw
      (fun n hn hne => leadsWith_eq_false_of_mismatchIn n w _ (weekday_pairwise n hn w hw hne)))]
    rw [List.drop_left]
    show ((' ' :: (t ++ (' ' :: (m ++ (' ' :: ['2', '0', a, b]))))).dropWhile isWsChar) =
      t ++ (' ' :: (m ++ (' ' :: ['2', '0', a, b])))
    rw [List.dropWhile_cons, if_pos (show isWsChar ' ' = true from by decide), htc,
      List.cons_append, dropWhile_ws_cons_nonws tc _ htchead, ← List.cons_append, ← htc]
  -- the year characters
  have hyc : yearChars
      (w ++ (',' :: ' ' :: (t ++ (' ' :: (m ++ (' ' :: ['2', '0', a, b])))))) =
      ['2', '0', a, b] := by
    unfold yearChars
    rw [hyr]
  have hd1 := dayTok_val_ge_one t ht
  -- Day-token decomposition
  have hshape := dayTok_shape t ht
  simp only [tokShape, Bool.and_eq_true] at hshape
  obtain ⟨hsh1, hsh2⟩ := hshape
  have htds := (List.takeWhile_append_dropWhile (p := isDigitC) (l := t)).symm
  rcases hDW : t.dropWhile isDigitC with _ | ⟨s1, sr⟩
  · rw [hDW] at hsh2
    exact Bool.noConfusion hsh2
  rcases sr with _ | ⟨s2, sr2⟩
  · rw [hDW] at hsh2
    exact Bool.noConfusion hsh2
  rcases sr2 with _ | ⟨s3, sr3⟩
  swap
  · rw [hDW] at hsh2
    exact Bool.noConfusion hsh2
  rw [hDW] at hsh2 htds
  have hord : isOrdPair s1 s2 = true := hsh2
  rcases hTW : t.takeWhile isDigitC with _ | ⟨x1, _ | ⟨x2, _ | ⟨x3, xr3⟩⟩⟩
  · rw [hTW] at hsh1
    exact Bool.noConfusion hsh1
  · -- one-digit day
    rw [hTW] at hsh1 htds
    have hsh1' : (isDigitC x1 && !(x1 == '0')) = true := hsh1
    simp only [Bool.and_eq_true, Bool.not_eq_true'] at hsh1'
    obtain ⟨hx1, hx10⟩ := hsh1'
    have htflat : t = x1 :: s1 :: s2 :: [] := by simpa using htds
    have hro : remOrd (t ++ (' ' :: (m ++ (' ' :: ['2', '0', a, b])))) =
        [x1] ++ (' ' :: (m ++ (' ' :: ['2', '0', a, b]))) := by
      rw [htflat]
      show remOrd (x1 :: s1 :: s2 :: (' ' :: (m ++ (' ' :: ['2', '0', a, b])))) = _
      rw [show remOrd (x1 :: s1 :: s2 :: (' ' :: (m ++ (' ' :: ['2', '0', a, b])))) =
          x1 :: remOrd (' ' :: (m ++ (' ' :: ['2', '0', a, b]))) from by
        simp [remOrd, hx1, hord]]
      rw [remOrd_cons_nondigit ' ' _ (by decide),
        remOrd_nodigit_append m _ (month_no_digit m hm), remOrd_year_tail a b ha hb]
      rfl
    have hbody : mkBody
        (w ++ (',' :: ' ' :: (t ++ (' ' :: (m ++ (' ' :: ['2', '0', a, b])))))) =
        [x1] ++ (' ' :: m) := by
      unfold mkBody
      rw [hsep]
      simp only [Bool.false_eq_true, if_false]
      rw [hsw]
      simp only [if_true]
      rw [hdw, hro, stripTrailYear_shape [x1] m a b ha hb hmne hml]
      apply pyStrip_eq_self
      · intro c hc
        simp only [List.cons_append, List.head?_cons, Option.some.injEq] at hc
        subst hc
        exact digit_not_ws x1 hx1
      · intro c hc
        rw [show ([x1] ++ (' ' :: m)).getLast? = some mc from by
          simp [List.getLast?_append, List.getLast?_eq_head?_reverse, hmc]] at hc
        simp only [Option.some.injEq] at hc
        subst hc
        exact hml mc mrest hmc
    have hcln : mkCleaned
        (w ++ (',' :: ' ' :: (t ++ (' ' :: (m ++ (' ' :: ['2', '0', a, b])))))) =
        [x1] ++ (' ' :: (m ++ (' ' :: ['2', '0', a, b]))) := by
      unfold mkCleaned
      rw [hyc, hbody]
      rw [List.filter_eq_self.mpr ?hnc]
      case hnc =>
        intro c hc
        simp only [Bool.not_eq_true', beq_eq_false_iff_ne]
        intro hceq
        subst hceq
        rcases List.mem_append.mp hc with h | h
        · rcases List.mem_append.mp h with h | h
          · simp only [List.mem_singleton] at h
            exact digit_ne x1 ',' hx1 (by decide) h.symm
          · rcases List.mem_cons.mp h with h | h
            · exact absurd h (by decide)
            · exact hmcomma ',' h rfl
        · rcases List.mem_cons.mp h with h | h
          · exact absurd h (by decide)
          rcases List.mem_cons.mp h with h | h
          · exact absurd h (by decide)
          rcases List.mem_cons.mp h with h | h
          · exact absurd h (by decide)
          rcases List.mem_cons.mp h with h | h
          · exact digit_ne a ',' ha (by decide) h.symm
          rcases List.mem_cons.mp h with h | h
          · exact digit_ne b ',' hb (by decide) h.symm
          · exact absurd h (List.not_mem_nil ',')
      rw [show ([x1] ++ (' ' :: m)) ++ ' ' :: ['2', '0', a, b] =
          [x1] ++ (' ' :: (m ++ (' ' :: ['2', '0', a, b]))) from by simp]
      apply pyStrip_eq_self
      · intro c hc
        simp only [List.cons_append, List.head?_cons, Option.some.injEq] at hc
        subst hc
        exact digit_not_ws x1 hx1
      · intro c hc
        rw [show ([x1] ++ (' ' :: (m ++ (' ' :: ['2', '0', a, b])))).getLast? = some b from by
          rw [List.getLast?_eq_head?_reverse,
            show ([x1] ++ (' ' :: (m ++ (' ' :: ['2', '0', a, b])))).reverse =
              b :: a :: '0' :: '2' :: ' ' :: (m.reverse ++ [' ', x1]) from by simp]
          rfl] at hc
        simp only [Option.some.injEq] at hc
        subst hc
        exact digit_not_ws b hb
    have hdval : dayValTok t = digitVal x1 := by
      rw [dayValTok, hTW]
      simp only [List.foldl_cons, List.foldl_nil]
      omega
    unfold parse_event_date
    rw [hdata, hnorm, hhdr]
    simp only [Bool.false_eq_true, if_false]
    rw [htbc]
    simp only [Bool.false_eq_true, if_false]
    rw [hcln, hdval]
    exact tryFormats_day_month_year [x1] m a b (digitVal x1) hm ha hb
      ⟨[], by simpa using dayCands_one x1 _ hx1 hx10⟩
      (by rw [← hdval]; exact hd1) (by rw [← hdval]; exact hdv)
  swap
  · -- three or more digits: impossible for a day token
    rw [hTW] at hsh1
    exact Bool.noConfusion hsh1
  · -- two-digit day
    rw [hTW] at hsh1 htds
    have hsh1' : (((x1 == '3') && ((x2 == '0') || (x2 == '1'))) ||
        (((x1 == '1') || (x1 == '2')) && isDigitC x2)) = true := hsh1
    have htflat : t = x1 :: x2 :: s1 :: s2 :: [] := by simpa using htds
    have hx1 : isDigitC x1 = true :=
      List.mem_takeWhile_imp (l := t) (by rw [hTW]; exact List.mem_cons_self _ _)
    have hx2 : isDigitC x2 = true :=
      List.mem_takeWhile_imp (l := t) (x := x2) (by rw [hTW]; simp)
    have hro : remOrd (t ++ (' ' :: (m ++ (' ' :: ['2', '0', a, b])))) =
        [x1, x2] ++ (' ' :: (m ++ (' ' :: ['2', '0', a, b]))) := by
      rw [htflat]
      show remOrd (x1 :: x2 :: s1 :: (s2 :: ' ' :: (m ++ (' ' :: ['2', '0', a, b])))) = _
      rw [show remOrd (x1 :: x2 :: s1 :: (s2 :: ' ' :: (m ++ (' ' :: ['2', '0', a, b])))) =
          x1 :: remOrd (x2 :: s1 :: s2 :: (' ' :: (m ++ (' ' :: ['2', '0', a, b])))) from by
        simp [remOrd, digit_not_ord_left x2 s1 hx2]]
      rw [show remOrd (x2 :: s1 :: s2 :: (' ' :: (m ++ (' ' :: ['2', '0', a, b])))) =
          x2 :: remOrd (' ' :: (m ++ (' ' :: ['2', '0', a, b]))) from by
        simp [remOrd, hx2, hord]]
      rw [remOrd_cons_nondigit ' ' _ (by decide),
        remOrd_nodigit_append m _ (month_no_digit m hm), remOrd_year_tail a b ha hb]
      rfl
    have hbody : mkBody
        (w ++ (',' :: ' ' :: (t ++ (' ' :: (m ++ (' ' :: ['2', '0', a, b])))))) =
        [x1, x2] ++ (' ' :: m) := by
      unfold mkBody
      rw [hsep]
      simp only [Bool.false_eq_true, if_false]
      rw [hsw]
      simp only [if_true]
      rw [hdw, hro, stripTrailYear_shape [x1, x2] m a b ha hb hmne hml]
      apply pyStrip_eq_self
      · intro c hc
        simp only [List.cons_append, List.head?_cons, Option.some.injEq] at hc
        subst hc
        exact digit_not_ws x1 hx1
      · intro c hc
        rw [show ([x1, x2] ++ (' ' :: m)).getLast? = some mc from by
          simp [List.getLast?_append, List.getLast?_eq_head?_reverse, hmc]] at hc
        simp only [Option.some.injEq] at hc
        subst hc
        exact hml mc mrest hmc
    have hcln : mkCleaned
        (w ++ (',' :: ' ' :: (t ++ (' ' :: (m ++ (' ' :: ['2', '0', a, b])))))) =
        [x1, x2] ++ (' ' :: (m ++ (' ' :: ['2', '0', a, b]))) := by
      unfold mkCleaned
      rw [hyc, hbody]
      rw [List.filter_eq_self.mpr ?hnc2]
      case hnc2 =>
        intro c hc
        simp only [Bool.not_eq_true', beq_eq_false_iff_ne]
        intro hceq
        subst hceq
        rcases List.mem_append.mp hc with h | h
        · rcases List.mem_append.mp h with h | h
          · rcases List.mem_cons.mp h with h | h
            · exact digit_ne x1 ',' hx1 (by decide) h.symm
            · simp only [List.mem_singleton] at h
              exact digit_ne x2 ',' hx2 (by decide) h.symm
          · rcases List.mem_cons.mp h with h | h
            · exact absurd h (by decide)
            · exact hmcomma ',' h rfl
        · rcases List.mem_cons.mp h with h | h
          · exact absurd h (by decide)
          rcases List.mem_cons.mp h with h | h
          · exact absurd h (by decide)
          rcases List.mem_cons.mp h with h | h
          · exact absurd h (by decide)
          rcases List.mem_cons.mp h with h | h
          · exact digit_ne a ',' ha (by decide) h.symm
          rcases List.mem_cons.mp h with h | h
          · exact digit_ne b ',' hb (by decide) h.symm
          · exact absurd h (List.not_mem_nil ',')
      rw [show ([x1, x2] ++ (' ' :: m)) ++ ' ' :: ['2', '0', a, b] =
          [x1, x2] ++ (' ' :: (m ++ (' ' :: ['2', '0', a, b]))) from by simp]
      apply pyStrip_eq_self
      · intro c hc
        simp only [List.cons_append, List.head?_cons, Option.some.injEq] at hc
        subst hc
        exact digit_not_ws x1 hx1
      · intro c hc
        rw [show ([x1, x2] ++ (' ' :: (m ++ (' ' :: ['2', '0', a, b])))).getLast? = some b from by
          rw [List.getLast?_eq_head?_reverse,
            show ([x1, x2] ++ (' ' :: (m ++ (' ' :: ['2', '0', a, b])))).reverse =
              b :: a :: '0' :: '2' :: ' ' :: (m.reverse ++ [' ', x2, x1]) from by simp]
          rfl] at hc
        simp only [Option.some.injEq] at hc
        subst hc
        exact digit_not_ws b hb
    unfold parse_event_date
    rw [hdata, hnorm, hhdr]
    simp only [Bool.false_eq_true, if_false]
    rw [htbc]
    simp only [Bool.false_eq_true, if_false]
    rw [hcln]
    simp only [Bool.or_eq_true, Bool.and_eq_true] at hsh1'
    rcases hsh1' with ⟨h3, h01⟩ | ⟨h12, -⟩
    · -- day 30 or 31
      obtain rfl : x1 = '3' := beq_iff_eq.mp h3
      have hdval : dayValTok t = 30 + digitVal x2 := by
        rw [dayValTok, hTW]
        rfl
      rw [hdval]
      exact tryFormats_day_month_year ['3', x2] m a b (30 + digitVal x2) hm ha hb
        ⟨[(3, x2 :: (' ' :: (m ++ (' ' :: ['2', '0', a, b]))))], by
          simpa using dayCands_thirty x2 _ (by simpa using h01)⟩
        (by omega) (by rw [← hdval]; exact hdv)
    · -- day 10-29
      have h3 : (x1 == '3') = false := by
        rcases h12 with h | h
        · obtain rfl := beq_iff_eq.mp h
          decide
        · obtain rfl := beq_iff_eq.mp h
          decide
      have h0 : (x1 == '0') = false := by
        rcases h12 with h | h
        · obtain rfl := beq_iff_eq.mp h
          decide
        · obtain rfl := beq_iff_eq.mp h
          decide
      have h12' : ((x1 == '1') || (x1 == '2')) = true := by
        rcases h12 with h | h
        · simp [h]
        · simp [h]
      have hdval : dayValTok t = digitVal x1 * 10 + digitVal x2 := by
        rw [dayValTok, hTW]
        simp only [List.foldl_cons, List.foldl_nil]
        omega
      rw [hdval]
      exact tryFormats_day_month_year [x1, x2] m a b (digitVal x1 * 10 + digitVal x2) hm ha hb
        ⟨[(digitVal x1, x2 :: (' ' :: (m ++ (' ' :: ['2', '0', a, b]))))], by
          simpa using dayCands_two x1 x2 _ hx1 h3 h12' h0 hx2⟩
        (by rw [← hdval]; exact hd1) (by rw [← hdval]; exact hdv)

theorem weekday_date_parses_witness :
    parse_event_date (mkWeekdayDateRaw ("Thursday").data ("2nd").data ("October").data '2' '5') =
      some ⟨2025, 10, 2⟩ :=
  weekday_date_parses ("Thursday").data ("2nd").data ("October").data '2' '5'
    (by decide) (by decide) (by decide) (by decide) (by decide) (by decide)

/-! ## C5: the year of every parsed date -/

/-- The numeric year of `cleaned_date_str`: the first 20xy of the text, or
    the default 2025 of line 74. -/
def defaultedYear (l : List Char) : Nat :=
  match findYearAux false l with
  | some p => 2000 + 10 * digitVal p.1 + digitVal p.2
  | none => 2025

theorem digitVal_le (c : Char) (h : isDigitC c = true) : digitVal c ≤ 9 := by
  simp only [isDigitC, decide_eq_true_eq] at h
  unfold digitVal
  omega

theorem yearAt_digits (l : List Char) (x y : Char) (h : yearAt l = some (x, y)) :
    isDigitC x = true ∧ isDigitC y = true := by
  rcases l with _ | ⟨c1, _ | ⟨c2, _ | ⟨c3, _ | ⟨c4, rest⟩⟩⟩⟩
  · exact Option.noConfusion h
  · exact Option.noConfusion h
  · exact Option.noConfusion h
  · exact Option.noConfusion h
  · simp only [yearAt] at h
    split at h
    next hcond =>
      simp only [Option.some.injEq, Prod.mk.injEq] at h
      obtain ⟨rfl, rfl⟩ := h
      simp only [Bool.and_eq_true] at hcond
      exact ⟨hcond.1.1.2, hcond.1.2⟩
    next => exact Option.noConfusion h

theorem findYearAux_digits (l : List Char) (b : Bool) (x y : Char)
    (h : findYearAux b l = some (x, y)) : isDigitC x = true ∧ isDigitC y = true := by
  induction l generalizing b with
  | nil => exact Option.noConfusion h
  | cons c t ih =>
    cases b with
    | true => exact ih (isWordChar c) h
    | false =>
      have h' : (match yearAt (c :: t) with
          | some p => some p
          | none => findYearAux (isWordChar c) t) = some (x, y) := h
      rcases hy : yearAt (c :: t) with _ | p
      · rw [hy] at h'
        exact ih (isWordChar c) h'
      · rw [hy] at h'
        have hp : p = (x, y) := Option.some.inj h'
        rw [hp] at hy
        exact yearAt_digits (c :: t) x y hy

theorem wsPlus_suffix (r r1 : List Char) (h : wsPlus r = some r1) : r1 <:+ r := by
  rcases r with _ | ⟨c, t⟩
  · exact Option.noConfusion h
  · have h' : (if isWsChar c then some (t.dropWhile isWsChar) else none) = some r1 := h
    split at h'
    · rw [← Option.some.inj h']
      exact (List.dropWhile_suffix isWsChar).trans (List.suffix_cons c t)
    · exact Option.noConfusion h'

theorem matchNameAux_suffix (i : Nat) (ns : List (List Char)) (l : List Char)
    (k : Nat) (r : List Char) (h : matchNameAux i ns l = some (k, r)) : r <:+ l := by
  induction ns generalizing i with
  | nil => exact Option.noConfusion h
  | cons n ns ih =>
    have h' : (if ciLeads n l then some (i + 1, l.drop n.length)
        else matchNameAux (i + 1) ns l) = some (k, r) := h
    split at h'
    · simp only [Option.some.injEq, Prod.mk.injEq] at h'
      rw [← h'.2]
      exact List.drop_suffix n.length l
    · exact ih (i + 1) h'

theorem dayCands_suffix (l : List Char) (p : Nat × List Char) (hp : p ∈ dayCands l) :
    p.2 <:+ l := by
  rcases l with _ | ⟨c, _ | ⟨d, t⟩⟩
  · simp [dayCands] at hp
  · simp only [dayCands, List.nil_append] at hp
    split at hp
    · simp only [List.mem_singleton] at hp
      rw [hp]
      exact List.nil_suffix
    · simp at hp
  · simp only [dayCands, List.mem_append] at hp
    rcases hp with ((hp | hp) | hp) | hp
    · split at hp
      · simp only [List.mem_singleton] at hp
        rw [hp]
        exact (List.suffix_cons d t).trans (List.suffix_cons c (d :: t))
      · simp at hp
    · split at hp
      · simp only [List.mem_singleton] at hp
        rw [hp]
        exact (List.suffix_cons d t).trans (List.suffix_cons c (d :: t))
      · simp at hp
    · split at hp
      · simp only [List.mem_singleton] at hp
        rw [hp]
        exact (List.suffix_cons d t).trans (List.suffix_cons c (d :: t))
      · simp at hp
    · split at hp
      · simp only [List.mem_singleton] at hp
        rw [hp]
        exact List.suffix_cons c (d :: t)
      · simp at hp

theorem afterDay_year (months : List (List Char)) (r : List Char) (mo y : Nat)
    (h : afterDay months r = some (mo, y)) :
    ∃ r3, r3 <:+ r ∧ yearEnd r3 = some y := by
  unfold afterDay at h
  simp only [Option.bind_eq_some, Option.map_eq_some'] at h
  obtain ⟨r1, h1, pm, h2, r3, h3, yy, h4, h5⟩ := h
  simp only [Prod.mk.injEq] at h5
  refine ⟨r3, ?_, ?_⟩
  · exact (wsPlus_suffix pm.2 r3 h3).trans
      ((matchNameAux_suffix 0 months r1 pm.1 pm.2 h2).trans (wsPlus_suffix r r1 h1))
  · rw [← h5.2]
    exact h4

theorem fmtDayMonthYear_year (months : List (List Char)) (l : List Char) (y mo d : Nat)
    (h : fmtDayMonthYear months l = some (y, mo, d)) :
    ∃ r3, r3 <:+ l ∧ yearEnd r3 = some y := by
  unfold fmtDayMonthYear at h
  obtain ⟨p, hp, hfp⟩ := List.exists_of_findSome?_eq_some h
  rw [Option.map_eq_some'] at hfp
  obtain ⟨q, hq, hqe⟩ := hfp
  simp only [Prod.mk.injEq] at hqe
  obtain ⟨r3, hsub, hye⟩ := afterDay_year months p.2 q.1 q.2 hq
  refine ⟨r3, hsub.trans (dayCands_suffix l p hp), ?_⟩
  rw [← hqe.1]
  exact hye

theorem fmtMonthDayYear_year (months : List (List Char)) (l : List Char) (y mo d : Nat)
    (h : fmtMonthDayYear months l = some (y, mo, d)) :
    ∃ r3, r3 <:+ l ∧ yearEnd r3 = some y := by
  unfold fmtMonthDayYear at h
  simp only [Option.bind_eq_some] at h
  obtain ⟨pm, h1, r2, h2, h3⟩ := h
  obtain ⟨p, hp, hfp⟩ := List.exists_of_findSome?_eq_some h3
  simp only [Option.bind_eq_some, Option.map_eq_some'] at hfp
  obtain ⟨r3, h4, yy, h5, h6⟩ := hfp
  simp only [Prod.mk.injEq] at h6
  refine ⟨r3, ?_, ?_⟩
  · exact (wsPlus_suffix p.2 r3 h4).trans ((dayCands_suffix r2 p hp).trans
      ((wsPlus_suffix pm.2 r2 h2).trans (matchNameAux_suffix 0 months l pm.1 pm.2 h1)))
  · rw [← h6.1]
    exact h5

theorem fmtWeekdayDayMonthYear_year (months : List (List Char)) (l : List Char) (y mo d : Nat)
    (h : fmtWeekdayDayMonthYear months l = some (y, mo, d)) :
    ∃ r3, r3 <:+ l ∧ yearEnd r3 = some y := by
  unfold fmtWeekdayDayMonthYear at h
  simp only [Option.bind_eq_some] at h
  obtain ⟨pw, h1, r2, h2, h3⟩ := h
  obtain ⟨r3, hsub, hye⟩ := fmtDayMonthYear_year months r2 y mo d h3
  exact ⟨r3, hsub.trans ((wsPlus_suffix pw.2 r2 h2).trans
    (matchNameAux_suffix 0 weekdayNames l pw.1 pw.2 h1)), hye⟩

theorem yearEnd_eq (r : List Char) (y : Nat) (h : yearEnd r = some y) :
    ∃ a b c d, r = [a, b, c, d] ∧
      y = digitVal a * 1000 + digitVal b * 100 + digitVal c * 10 + digitVal d := by
  rcases r with _ | ⟨a, _ | ⟨b, _ | ⟨c, _ | ⟨d, _ | ⟨e, r5⟩⟩⟩⟩⟩
  · exact Option.noConfusion h
  · exact Option.noConfusion h
  · exact Option.noConfusion h
  · exact Option.noConfusion h
  · have h' : (if isDigitC a && isDigitC b && isDigitC c && isDigitC d then
        some (digitVal a * 1000 + digitVal b * 100 + digitVal c * 10 + digitVal d)
        else none) = some y := h
    split at h'
    · exact ⟨a, b, c, d, rfl, (Option.some.inj h').symm⟩
    · exact Option.noConfusion h'
  · exact Option.noConfusion h

theorem pyStrip_digit_tail (A : List Char) (x y : Char)
    (_hx : isDigitC x = true) (hy : isDigitC y = true) :
    ∃ P, pyStripChars (A ++ [' ', '2', '0', x, y]) = P ++ ['2', '0', x, y] := by
  unfold pyStripChars
  rcases dropWhile_append_cases isWsChar A [' ', '2', '0', x, y] with hD | hD
  · refine ⟨A.dropWhile isWsChar ++ [' '], ?_⟩
    rw [hD,
      show (A.dropWhile isWsChar ++ [' ', '2', '0', x, y]).reverse =
        y :: x :: '0' :: '2' :: ' ' :: (A.dropWhile isWsChar).reverse from by simp,
      dropWhile_ws_cons_nonws y _ (digit_not_ws y hy),
      show (y :: x :: '0' :: '2' :: ' ' :: (A.dropWhile isWsChar).reverse).reverse =
        (A.dropWhile isWsChar ++ [' ']) ++ ['2', '0', x, y] from by simp]
  · refine ⟨[], ?_⟩
    rw [hD,
      show ([' ', '2', '0', x, y].dropWhile isWsChar) = ['2', '0', x, y] from by
        rw [List.dropWhile_cons, if_pos (show isWsChar ' ' = true from by decide),
          dropWhile_ws_cons_nonws '2' _ (by decide)],
      show (['2', '0', x, y] : List Char).reverse = [y, x, '0', '2'] from by simp,
      show ([y, x, '0', '2'] : List Char).dropWhile isWsChar = [y, x, '0', '2'] from
        dropWhile_ws_cons_nonws y _ (digit_not_ws y hy),
      show ([y, x, '0', '2'] : List Char).reverse = [] ++ ['2', '0', x, y] from by simp]

theorem mkCleaned_year_tail (l : List Char) :
    ∃ P x y, mkCleaned l = P ++ ['2', '0', x, y] ∧ isDigitC x = true ∧ isDigitC y = true ∧
      2000 + 10 * digitVal x + digitVal y = defaultedYear l := by
  obtain ⟨x, y, hyc, hx, hy, hdef⟩ : ∃ x y, yearChars l = ['2', '0', x, y] ∧
      isDigitC x = true ∧ isDigitC y = true ∧
      2000 + 10 * digitVal x + digitVal y = defaultedYear l := by
    unfold yearChars defaultedYear
    rcases hf : findYearAux false l with _ | p
    · exact ⟨'2', '5', rfl, by decide, by decide, by decide⟩
    · obtain ⟨hx, hy⟩ := findYearAux_digits l false p.1 p.2 hf
      exact ⟨p.1, p.2, rfl, hx, hy, rfl⟩
  obtain ⟨P, hP⟩ := pyStrip_digit_tail ((mkBody l).filter (fun c => !(c == ','))) x y hx hy
  refine ⟨P, x, y, ?_, hx, hy, hdef⟩
  unfold mkCleaned
  rw [hyc, List.filter_append,
    show (' ' :: ['2', '0', x, y]).filter (fun c => !(c == ',')) = [' ', '2', '0', x, y] from by
      apply List.filter_eq_self.mpr
      intro c hc
      simp only [List.mem_cons, List.not_mem_nil, or_false] at hc
      rcases hc with rfl | rfl | rfl | rfl | rfl
      · decide
      · decide
      · decide
      · simp only [Bool.not_eq_true', beq_eq_false_iff_ne]
        exact digit_ne _ ',' hx (by decide)
      · simp only [Bool.not_eq_true', beq_eq_false_iff_ne]
        exact digit_ne _ ',' hy (by decide)]
  exact hP

/-- C5: whenever `parse_event_date` returns a date, its year lies in
    2000-2099, and it equals the year built on lines 72-74: the first
    `\b20\d{2}\b` match of the normalized text when one exists, else the
    default 2025. -/
theorem parsed_year_in_range (raw : String) (dt : PyDate)
    (h : parse_event_date raw = some dt) :
    2000 ≤ dt.year ∧ dt.year ≤ 2099 ∧ dt.year = defaultedYear (normSpaces raw.data) := by
  unfold parse_event_date at h
  split at h
  · exact Option.noConfusion h
  split at h
  · exact Option.noConfusion h
  unfold tryFormats at h
  obtain ⟨f, hf, hcf⟩ := List.exists_of_findSome?_eq_some h
  obtain ⟨y, mo, d, hfl, hdy⟩ : ∃ y mo d,
      f (mkCleaned (normSpaces raw.data)) = some (y, mo, d) ∧ dt.year = y := by
    unfold checked at hcf
    rcases hres : f (mkCleaned (normSpaces raw.data)) with _ | ⟨⟨y, mo, d⟩⟩
    · rw [hres] at hcf
      exact Option.noConfusion hcf
    · rw [hres] at hcf
      have hcf' : (if validYMD y mo d then some (⟨y, mo, d⟩ : PyDate) else none) = some dt := hcf
      split at hcf'
      · refine ⟨y, mo, d, rfl, ?_⟩
        rw [← Option.some.inj hcf']
      · exact Option.noConfusion hcf'
  obtain ⟨r3, hsub, hye⟩ : ∃ r3, r3 <:+ mkCleaned (normSpaces raw.data) ∧
      yearEnd r3 = some y := by
    simp only [List.mem_cons, List.not_mem_nil, or_false] at hf
    rcases hf with rfl | rfl | rfl | rfl | rfl | rfl
    · exact fmtDayMonthYear_year _ _ _ _ _ hfl
    · exact fmtDayMonthYear_year _ _ _ _ _ hfl
    · exact fmtMonthDayYear_year _ _ _ _ _ hfl
    · exact fmtMonthDayYear_year _ _ _ _ _ hfl
    · exact fmtWeekdayDayMonthYear_year _ _ _ _ _ hfl
    · exact fmtWeekdayDayMonthYear_year _ _ _ _ _ hfl
  obtain ⟨P, x, y2, hmk, hx, hy2, hdef⟩ := mkCleaned_year_tail (normSpaces raw.data)
  obtain ⟨a2, b2, c2, d2, hr3, hyv⟩ := yearEnd_eq r3 y hye
  rw [hmk, hr3] at hsub
  obtain ⟨s, hs⟩ := hsub
  have hlen : s.length = P.length := by
    have hl := congrArg List.length hs
    simp only [List.length_append, List.length_cons, List.length_nil] at hl
    omega
  have heq : [a2, b2, c2, d2] = ['2', '0', x, y2] := List.append_inj_right hs hlen
  simp only [List.cons.injEq, and_true] at heq
  obtain ⟨rfl, rfl, rfl, rfl⟩ := heq
  have hxv := digitVal_le _ hx
  have hyv2 := digitVal_le _ hy2
  have h2v : digitVal '2' = 2 := rfl
  have h0v : digitVal '0' = 0 := rfl
  refine ⟨?_, ?_, ?_⟩
  · rw [hdy, hyv]
    omega
  · rw [hdy, hyv]
    omega
  · rw [hdy, hyv, ← hdef]
    omega

theorem parsed_year_in_range_witness :
    2000 ≤ (PyDate.mk 2025 11 12).year ∧ (PyDate.mk 2025 11 12).year ≤ 2099 ∧
      (PyDate.mk 2025 11 12).year = defaultedYear (normSpaces ("12 Nov 2025").data) :=
  parsed_year_in_range ("12 Nov 2025") ⟨2025, 11, 12⟩ (by decide)

end Cop30
